import Mathlib

/-!
# mediastreamer2 event queue (`eventqueue.c`)

A shallow embedding of `submodules/linphone/mediastreamer2/src/base/eventqueue.c`.

Conventions of the embedding.

* Pointers into `q->buffer` are byte offsets from `q->buffer` (so `q->buffer` is offset `0`).
  A filter pointer `MSFilter *` is its address, a natural number; `NULL` is `0`.
* Memory is a total map from offsets to bytes.  Every store reduces the stored byte modulo `256`.
* `long` is 64 bits wide and stored little-endian (LP64), so that the record header
  `*(long*)wptr`, `*(long*)(wptr+8)` is 16 bytes, as `size=argsize+16` in `write_event` assumes.
* `unsigned int` is 32 bits wide.
* `int` values (`freeroom`, `size`) are integers; the operations keep them far from the `int`
  range ends, so no reduction is applied to them.
* The registered callbacks `ctx->fn` are foreign code.  A call `ctx->fn(ctx->ud,*f,id,arg)` is
  recorded as an `Invocation` in a trace; the callbacks are taken not to re-enter the queue or
  the registry.
* A registry `reg` says what is at an address: `reg f = some cbs` when a filter lives at `f`,
  with `cbs` its list `f->notify_callbacks`, and `reg f = none` when no filter does.
  `read_event` hands the owner it decodes to `ms_filter_invoke_callbacks`, which reads
  `(*f)->notify_callbacks`; for an owner that is not null and no filter that read has no defined
  result, and `read_event` and the pump give `none`.
* The mutex around `freeroom` and the diagnostics (`ms_error`, `ms_message`, `ms_warning`)
  have no effect on the sequential state and are left out.
* An `MSList` is the list of its elements and a link is named by its position.  The list
  primitives `ms_list_append`, `ms_list_remove_link` and `ms_list_free_with_data` are not part
  of the sources at hand; their definitions here say what they are taken to do.
* `ms_event_queue_new` takes the size of the buffer as an argument; the source passes
  `MS_EVENT_BUF_SIZE`, 8192 unless the build overrides it.
-/

namespace EventQueue

/-- The default of the `MS_EVENT_BUF_SIZE` preprocessor constant. -/
def MS_EVENT_BUF_SIZE : Nat := 8192

/-- The enum `InvocationMode`. -/
inductive InvocationMode where
  | OnlySynchronous
  | OnlyAsynchronous
  | Both
  deriving DecidableEq

/-- The struct `_MSNotifyContext`: the callback `fn`, its user data `ud`, and the
`synchronous` flag. -/
structure MSNotifyContext where
  fn : Nat
  ud : Nat
  synchronous : Bool
  deriving DecidableEq

/-- The struct `_MSEventQueue` (without the mutex).  The pointers `rptr`, `wptr`, `endptr`
and `lim` are offsets from `buffer`. -/
structure MSEventQueue where
  rptr : Nat
  wptr : Nat
  endptr : Nat
  lim : Nat
  freeroom : Int
  size : Int
  current_notifier : Nat
  buffer : Nat → Nat

/-- One call `ctx->fn(ctx->ud,*f,id,arg)`: the callback, its user data, the filter, the event
id and the bytes `arg` points to (`[]` for `NULL`). -/
structure Invocation where
  fn : Nat
  ud : Nat
  f : Nat
  id : Nat
  arg : List Nat
  deriving DecidableEq

/-- The store `*(long*)p = v`: eight bytes, little-endian, at offsets `p .. p+7`. -/
def store_long (buf : Nat → Nat) (p v : Nat) : Nat → Nat :=
  fun i => if p ≤ i ∧ i < p + 8 then (v / 256 ^ (i - p)) % 256 else buf i

/-- The load `*(long*)p`: the eight bytes at offsets `p .. p+7`, little-endian. -/
def load_long (buf : Nat → Nat) (p : Nat) : Nat :=
  buf p + 256 * (buf (p + 1) + 256 * (buf (p + 2) + 256 * (buf (p + 3) + 256 * (buf (p + 4)
    + 256 * (buf (p + 5) + 256 * (buf (p + 6) + 256 * buf (p + 7)))))))

/-- The call `memcpy(dst,src,n)` into the buffer; `src` is the list of bytes the source pointer
points to (bytes past its end read as `0`). -/
def memcpy (buf : Nat → Nat) (dst : Nat) (src : List Nat) (n : Nat) : Nat → Nat :=
  fun i => if dst ≤ i ∧ i < dst + n then src.getD (i - dst) 0 % 256 else buf i

/-- The `n` bytes of the buffer that start at offset `p`. -/
def bytes_at (buf : Nat → Nat) (p n : Nat) : List Nat :=
  (List.range n).map (fun k => buf (p + k))

/-- The function `write_event`. -/
def write_event (q : MSEventQueue) (f ev_id : Nat) (arg : List Nat) : MSEventQueue :=
  let argsize := ev_id &&& 0xff
  let size := argsize + 16
  let nextpos := q.wptr + size
  if q.freeroom < (size : Int) then q
  else
    let endptr := if nextpos > q.lim then q.wptr else q.endptr
    let wptr := if nextpos > q.lim then 0 else q.wptr
    let nextpos := if nextpos > q.lim then wptr + size else nextpos
    let b1 := store_long q.buffer wptr (f % 2 ^ 64)
    let b2 := store_long b1 (wptr + 8) ev_id
    let b3 := if argsize > 0 then memcpy b2 (wptr + 16) arg argsize else b2
    { q with endptr := endptr, wptr := nextpos, buffer := b3,
             freeroom := q.freeroom - (size : Int) }

/-- The out-parameters and the return value `evsize` of `parse_event`; `data` is the offset
`rptr+16` of the payload. -/
structure ParsedEvent where
  f : Nat
  id : Nat
  data : Nat
  argsize : Nat
  evsize : Nat
  deriving DecidableEq

/-- The function `parse_event`. -/
def parse_event (buf : Nat → Nat) (rptr : Nat) : ParsedEvent :=
  let f := load_long buf rptr
  let id := load_long buf (rptr + 8) % 2 ^ 32
  let argsize := id &&& 0xff
  { f := f, id := id, data := rptr + 16, argsize := argsize, evsize := argsize + 16 }

/-- The function `ms_filter_invoke_callbacks`, on the list `(*f)->notify_callbacks`.  The loop
goes on while `elem!=NULL && *f!=NULL`. -/
def ms_filter_invoke_callbacks (cbs : List MSNotifyContext) (f id : Nat) (arg : List Nat)
    (synchronous_mode : InvocationMode) : List Invocation :=
  match cbs with
  | [] => []
  | ctx :: rest =>
    if f = 0 then []
    else
      (if synchronous_mode = InvocationMode.Both
          ∨ (synchronous_mode = InvocationMode.OnlyAsynchronous ∧ ctx.synchronous = false)
          ∨ (synchronous_mode = InvocationMode.OnlySynchronous ∧ ctx.synchronous = true)
        then [{ fn := ctx.fn, ud := ctx.ud, f := f, id := id, arg := arg }]
        else [])
      ++ ms_filter_invoke_callbacks rest f id arg synchronous_mode

/-- The result of `read_event`: the returned `bool_t`, the queue afterwards and the callbacks
invoked. -/
structure ReadResult where
  ret : Bool
  q : MSEventQueue
  calls : List Invocation

/-- The function `read_event`.  `reg f` is the list `f->notify_callbacks` of the filter at
address `f`, and `none` when there is no filter at `f`.  For a decoded owner that is not null,
`ms_filter_invoke_callbacks` reads `(*f)->notify_callbacks`: when the owner is no filter the
call has no result (`none`). -/
def read_event (reg : Nat → Option (List MSNotifyContext)) (q : MSEventQueue) :
    Option ReadResult :=
  let available := q.size - q.freeroom
  if available > 0 then
    let ev := parse_event q.buffer q.rptr
    let rptr := q.rptr + ev.evsize
    let rptr := if rptr ≥ q.endptr then 0 else rptr
    if ev.f ≠ 0 then
      match reg ev.f with
      | none => none
      | some cbs =>
        some { ret := true,
               q := { q with current_notifier := 0, rptr := rptr,
                             freeroom := q.freeroom + (ev.evsize : Int) },
               calls := ms_filter_invoke_callbacks cbs ev.f ev.id
                 (if ev.argsize > 0 then bytes_at q.buffer ev.data ev.argsize else [])
                 InvocationMode.OnlyAsynchronous }
    else
      some { ret := true,
             q := { q with rptr := rptr, freeroom := q.freeroom + (ev.evsize : Int) },
             calls := [] }
  else some { ret := false, q := q, calls := [] }

/-- The loop `while(read_event(q)){}` of `ms_event_queue_pump`, run for at most `fuel`
iterations; `none` when a `read_event` of the loop has no result. -/
def pump_loop (reg : Nat → Option (List MSNotifyContext)) :
    Nat → MSEventQueue → Option (MSEventQueue × List Invocation)
  | 0, q => some (q, [])
  | fuel + 1, q =>
    match read_event reg q with
    | none => none
    | some r =>
      if r.ret then
        match pump_loop reg fuel r.q with
        | none => none
        | some rest => some (rest.1, r.calls ++ rest.2)
      else some (r.q, [])

/-- The function `ms_event_queue_pump`: the queue afterwards and the callbacks invoked.  Every
iteration that returns `TRUE` raises `freeroom` by at least `16`, so `size - freeroom`
iterations are enough (see `pump_drained`). -/
def ms_event_queue_pump (reg : Nat → Option (List MSNotifyContext)) (q : MSEventQueue) :
    Option (MSEventQueue × List Invocation) :=
  pump_loop reg (q.size - q.freeroom).toNat q

/-- The loop of `ms_event_queue_clean` on the locals `freeroom` and `rptr` and the buffer, run
for at most `fuel` iterations. -/
def clean_loop (size : Int) (endptr destroyed : Nat) :
    Nat → Int → Nat → (Nat → Nat) → (Nat → Nat)
  | 0, _, _, buf => buf
  | fuel + 1, freeroom, rptr, buf =>
    if size > freeroom then
      let ev := parse_event buf rptr
      let buf := if ev.f = destroyed then store_long buf rptr 0 else buf
      let rptr := rptr + ev.evsize
      let rptr := if rptr ≥ endptr then 0 else rptr
      clean_loop size endptr destroyed fuel (freeroom + (ev.evsize : Int)) rptr buf
    else buf

/-- The function `ms_event_queue_clean`. -/
def ms_event_queue_clean (q : MSEventQueue) (destroyed : Nat) : MSEventQueue :=
  let buf := (clean_loop q.size q.endptr destroyed (q.size - q.freeroom).toNat q.freeroom q.rptr
    q.buffer)
  { q with buffer := buf,
           current_notifier := if q.current_notifier = destroyed then 0 else q.current_notifier }

/-- The function `ms_event_queue_new`, for a buffer of `bufsize` bytes (`MS_EVENT_BUF_SIZE`);
`ms_new0` zeroes the structure. -/
def ms_event_queue_new (bufsize : Nat) : MSEventQueue :=
  { rptr := 0, wptr := 0, endptr := bufsize, lim := bufsize, freeroom := bufsize,
    size := bufsize, current_notifier := 0, buffer := fun _ => 0 }

/-- The function `ms_event_queue_skip`. -/
def ms_event_queue_skip (q : MSEventQueue) : MSEventQueue :=
  let bufsize := q.size
  { q with lim := bufsize.toNat, freeroom := bufsize, wptr := 0, rptr := 0,
           endptr := bufsize.toNat }

/-- The state the dispatcher works on: the list `f->notify_callbacks` of every filter, the
static `ms_global_event_queue` (`none` for `NULL`) and the callbacks invoked so far. -/
structure World where
  notify_callbacks : Nat → List MSNotifyContext
  ms_global_event_queue : Option MSEventQueue
  trace : List Invocation

/-- The function `ms_filter_notify`. -/
def ms_filter_notify (w : World) (f id : Nat) (arg : List Nat) : World :=
  if w.notify_callbacks f ≠ [] then
    match w.ms_global_event_queue with
    | none =>
      { w with trace := (w.trace ++
          ms_filter_invoke_callbacks (w.notify_callbacks f) f id arg InvocationMode.Both) }
    | some q =>
      { w with trace := (w.trace ++
          ms_filter_invoke_callbacks (w.notify_callbacks f) f id arg
            InvocationMode.OnlySynchronous),
               ms_global_event_queue := some (write_event q f id arg) }
  else w

/-- The offset at which `write_event` writes an accepted record: `buffer` when
`nextpos>q->lim`, else `q->wptr`. -/
def write_pos (q : MSEventQueue) (ev_id : Nat) : Nat :=
  if q.wptr + ((ev_id &&& 0xff) + 16) > q.lim then 0 else q.wptr

/-! ## Runs of enqueue and drain operations -/

/-- An event handed to `write_event`: the filter, the event id and the bytes `arg` points
to. -/
structure Event where
  f : Nat
  id : Nat
  arg : List Nat
  deriving DecidableEq

/-- The encoded size of the record of an event: `16 + (id & 0xff)`. -/
def Event.record_size (e : Event) : Nat := 16 + (e.id &&& 0xff)

/-- One operation on a queue: `write_event(q,f,id,arg)` or `read_event(q)`. -/
inductive Op where
  | enqueue (e : Event)
  | drain
  deriving DecidableEq

/-- A queue together with what an observer of the calls has seen: the events `write_event`
accepted (it did not take the `freeroom<size` exit), in order, the number of `read_event` calls
that returned `TRUE`, and the callbacks invoked.  `fault` is set when a `read_event` of the run
had no result (it decoded an owner that is no filter): the run is over there and later
operations are not made. -/
structure Run where
  q : MSEventQueue
  accepted : List Event
  drained : Nat
  calls : List Invocation
  fault : Bool

/-- A newly created queue of `bufsize` bytes, nothing observed yet. -/
def Run.start (bufsize : Nat) : Run :=
  { q := ms_event_queue_new bufsize, accepted := [], drained := 0, calls := [], fault := false }

/-- One operation applied to a run. -/
def Run.step (reg : Nat → Option (List MSNotifyContext)) (r : Run) : Op → Run
  | Op.enqueue e =>
    if r.fault then r
    else
      { r with q := write_event r.q e.f e.id e.arg,
               accepted := if r.q.freeroom < ((e.id &&& 0xff) + 16 : Nat) then r.accepted
                           else r.accepted ++ [e] }
  | Op.drain =>
    if r.fault then r
    else
      match read_event reg r.q with
      | none => { r with fault := true }
      | some res =>
        { r with q := res.q,
                 drained := if res.ret then r.drained + 1 else r.drained,
                 calls := r.calls ++ res.calls }

/-- The operations of a list applied to a run, one after the other. -/
def Run.exec (reg : Nat → Option (List MSNotifyContext)) (r : Run) (ops : List Op) : Run :=
  ops.foldl (Run.step reg) r

/-- The run before the first operation and after each operation of a list. -/
def Run.trail (reg : Nat → Option (List MSNotifyContext)) : Run → List Op → List Run
  | r, [] => [r]
  | r, op :: ops => r :: Run.trail reg (Run.step reg r op) ops

/-- The pending events: the accepted events other than the first `drained` of them. -/
def Run.pending (r : Run) : List Event := r.accepted.drop r.drained

/-- The total encoded size of the pending records. -/
def Run.bytes_in_use (r : Run) : Nat := (r.pending.map Event.record_size).sum

/-- The callbacks a list of events is due: for each event in order, the asynchronous entries of
its filter, with the event id and payload. -/
def expected_calls (reg : Nat → Option (List MSNotifyContext)) : List Event → List Invocation
  | [] => []
  | e :: es =>
    ms_filter_invoke_callbacks ((reg e.f).getD []) e.f e.id e.arg
        InvocationMode.OnlyAsynchronous
      ++ expected_calls reg es

/-- A registry for the examples: filters live at the addresses `1` and `2` and nowhere else;
each has one asynchronous callback, `fn = 100 + address`, `ud = 7`. -/
def example_registry : Nat → Option (List MSNotifyContext) :=
  fun f => if f = 1 ∨ f = 2 then some [{ fn := 100 + f, ud := 7, synchronous := false }]
    else none

/-- The `k`-th large event of the examples: filter `1`, event id `256*k + 255` (so 255 payload
bytes and a record of 271 bytes), payload all zero. -/
def big_event (k : Nat) : Event :=
  { f := 1, id := 256 * k + 255, arg := List.replicate 255 0 }

/-- Thirty large events, `30 * 271 = 8130` bytes: the write cursor ends 62 bytes short of the end
of an 8192 byte buffer. -/
def fill_ops : List Op := (List.range 30).map (fun k => Op.enqueue (big_event k))

/-- A small event of the examples for filter `2`: event id `0x1f2e`, 46 payload bytes, a record
of 62 bytes. -/
def late_event : Event := { f := 2, id := 0x1f2e, arg := List.replicate 46 5 }

/-- An event without payload for filter `2` (as `ms_filter_notify_no_arg` raises): event id
`0x300`, a record of 16 bytes. -/
def no_arg_event : Event := { f := 2, id := 0x300, arg := [] }

/-- Fill the buffer up to offset 8130, drain the first record, then enqueue a 271 byte record
(it does not fit in the 62 bytes left at the end, so it goes to the start of the buffer) and a
62 byte record. -/
def overwrite_ops : List Op :=
  fill_ops ++ [Op.drain, Op.enqueue (big_event 30), Op.enqueue late_event]

/-- Fill the buffer up to offset 8130 and drain all thirty records: the queue is empty, both
cursors at offset 8130. -/
def fill_and_drain_ops : List Op := fill_ops ++ List.replicate 30 Op.drain

/-- On the emptied queue, enqueue a 271 byte record (it goes to the start of the buffer) and a
16 byte record. -/
def wrap_ops : List Op :=
  fill_and_drain_ops ++ [Op.enqueue (big_event 30), Op.enqueue no_arg_event]

/-- On the emptied queue, enqueue a 271 byte record (it goes to the start of the buffer) and
drain once. -/
def wrap_drain_ops : List Op :=
  fill_and_drain_ops ++ [Op.enqueue (big_event 30), Op.drain]

/-- On the emptied queue, enqueue events for the filters `1` and `2` in turn; the last one has
no payload. -/
def interleaved_ops : List Op :=
  fill_and_drain_ops ++ [Op.enqueue (big_event 30), Op.enqueue late_event,
    Op.enqueue (big_event 31), Op.enqueue no_arg_event]

/-- A queue of 64 bytes holding one record whose owner field `ms_event_queue_clean` has set
to null. -/
def cleaned_queue : MSEventQueue :=
  ms_event_queue_clean (write_event (ms_event_queue_new 64) 7 0x203 [1, 2, 3]) 7

/-! ## Records laid out in the buffer -/

/-- An event `write_event` can be given: a 64 bit filter pointer, a 32 bit event id, and a
payload of `id & 0xff` bytes. -/
def Event.valid (e : Event) : Prop :=
  e.f < 2 ^ 64 ∧ e.id < 2 ^ 32 ∧ e.arg.length = e.id &&& 0xff ∧ ∀ b ∈ e.arg, b < 256

/-- The total encoded size of a list of events. -/
def total_size (es : List Event) : Nat := (es.map Event.record_size).sum

/-- The buffer holds the records of the events `es`, one after the other from offset `p` on:
`parse_event` decodes each of them and the payload bytes are in place. -/
def records_at (buf : Nat → Nat) : Nat → List Event → Prop
  | _, [] => True
  | p, e :: es =>
    parse_event buf p = { f := e.f, id := e.id, data := p + 16, argsize := e.id &&& 0xff,
                          evsize := 16 + (e.id &&& 0xff) }
    ∧ bytes_at buf (p + 16) (e.id &&& 0xff) = e.arg
    ∧ records_at buf (p + e.record_size) es

/-- The events of the `enqueue` operations of a list, in order. -/
def enqueued : List Op → List Event
  | [] => []
  | Op.enqueue e :: ops => e :: enqueued ops
  | Op.drain :: ops => enqueued ops

/-- The owner of an event is null or the address of a filter. -/
def Event.owned (reg : Nat → Option (List MSNotifyContext)) (e : Event) : Prop :=
  e.f = 0 ∨ (reg e.f).isSome = true

/-- The state of a run on a buffer of `n` bytes in which no `write_event` has wrapped: the
accepted events split into the drained ones and the pending ones, all records lie one after the
other from offset `0`, the pending ones from `rptr` to `wptr`, `freeroom` is what the
pending records leave, and no `read_event` was left without a result. -/
def Run.wrap_free (reg : Nat → Option (List MSNotifyContext)) (n : Nat) (r : Run) : Prop :=
  ∃ done pend : List Event,
    r.accepted = done ++ pend ∧ r.drained = done.length
    ∧ r.q.size = n ∧ r.q.lim = n ∧ r.q.endptr = n
    ∧ total_size r.accepted ≤ n
    ∧ r.q.wptr = total_size r.accepted
    ∧ r.q.freeroom = (n : Int) - (total_size pend : Int)
    ∧ records_at r.q.buffer (total_size done) pend
    ∧ (r.q.rptr = total_size done ∨ (pend = [] ∧ total_size r.accepted = n))
    ∧ r.calls = expected_calls reg done
    ∧ r.fault = false
    ∧ ∀ e ∈ r.accepted, e.owned reg

/-- An event as `ms_event_queue_clean(q, destroyed)` leaves its record: the owner field is
null when it was `destroyed`. -/
def Event.neutralize (destroyed : Nat) (e : Event) : Event :=
  if e.f = destroyed then { e with f := 0 } else e

/-! ## The notification registry -/

/-- Modelled from the spec: `ms_list_append` is not among the sources at hand.  An `MSList` is
the list of its elements; "appends an entry to `owner`'s list; order is preserved". -/
def ms_list_append (l : List MSNotifyContext) (data : MSNotifyContext) : List MSNotifyContext :=
  l ++ [data]

/-- Modelled from the spec: `ms_list_remove_link` is not among the sources at hand.  A link of
the list is named by its position; the link is taken out and the other elements keep their
order ("removed individually"). -/
def ms_list_remove_link (l : List MSNotifyContext) (elem : Nat) : List MSNotifyContext :=
  l.eraseIdx elem

/-- Modelled from the spec: `ms_list_free_with_data` is not among the sources at hand; it
"removes and releases every entry" and returns the empty list. -/
def ms_list_free_with_data (_l : List MSNotifyContext) : List MSNotifyContext := []

/-- The function `ms_notify_context_new`. -/
def ms_notify_context_new (fn ud : Nat) (synchronous : Bool) : MSNotifyContext :=
  { fn := fn, ud := ud, synchronous := synchronous }

/-- The function `ms_filter_add_notify_callback`, on the list `f->notify_callbacks`. -/
def ms_filter_add_notify_callback (cbs : List MSNotifyContext) (fn ud : Nat)
    (synchronous : Bool) : List MSNotifyContext :=
  ms_list_append cbs (ms_notify_context_new fn ud synchronous)

/-- The search loop of `ms_filter_remove_notify_callback`: the position of the first link
whose context has `ctx->fn==fn && ctx->ud==ud`, or `none` when `found` stays `NULL`. -/
def find_notify_context (fn ud : Nat) : List MSNotifyContext → Option Nat
  | [] => none
  | ctx :: rest =>
    if ctx.fn = fn ∧ ctx.ud = ud then some 0
    else (find_notify_context fn ud rest).map (fun i => i + 1)

/-- The function `ms_filter_remove_notify_callback`, on the list `f->notify_callbacks`. -/
def ms_filter_remove_notify_callback (cbs : List MSNotifyContext) (fn ud : Nat) :
    List MSNotifyContext :=
  match find_notify_context fn ud cbs with
  | some found => ms_list_remove_link cbs found
  | none => cbs

/-- The function `ms_filter_clear_notify_callback`, on the list `f->notify_callbacks`. -/
def ms_filter_clear_notify_callback (cbs : List MSNotifyContext) : List MSNotifyContext :=
  ms_list_free_with_data cbs

/-! ## Reachable queues and loop counts -/

/-- One call on a queue: `write_event`, `read_event`, `ms_event_queue_skip` or
`ms_event_queue_clean`. -/
inductive QueueOp where
  | enqueue (f ev_id : Nat) (arg : List Nat)
  | drain
  | skip
  | clean (destroyed : Nat)

/-- The queue after one call.  A `read_event` without a result (it decoded an owner that is no
filter) has no queue after it; the queue of before stands in, so that the queues `run_ops`
gives take in every queue that calls can reach. -/
def QueueOp.apply (reg : Nat → Option (List MSNotifyContext)) (q : MSEventQueue) :
    QueueOp → MSEventQueue
  | QueueOp.enqueue f ev_id arg => write_event q f ev_id arg
  | QueueOp.drain =>
    match read_event reg q with
    | none => q
    | some r => r.q
  | QueueOp.skip => ms_event_queue_skip q
  | QueueOp.clean destroyed => ms_event_queue_clean q destroyed

/-- The queue after a list of calls, one after the other. -/
def run_ops (reg : Nat → Option (List MSNotifyContext)) (q : MSEventQueue) (ops : List QueueOp) :
    MSEventQueue :=
  ops.foldl (QueueOp.apply reg) q

/-- The number of `read_event` calls that return `TRUE` in the loop of `ms_event_queue_pump`,
among the first `fuel` calls. -/
def pump_count (reg : Nat → Option (List MSNotifyContext)) : Nat → MSEventQueue → Nat
  | 0, _ => 0
  | fuel + 1, q =>
    match read_event reg q with
    | none => 0
    | some r => if r.ret then pump_count reg fuel r.q + 1 else 0

/-- The owners decoded on the way of the reader: the owner fields of the records that the
calls of `read_event` in the loop of `ms_event_queue_pump` decode one after the other, for at
most `fuel` records.  The buffer and `endptr` are those of the queue; a pump changes
neither. -/
def scan_owners (size : Int) (endptr : Nat) : Nat → Int → Nat → (Nat → Nat) → List Nat
  | 0, _, _, _ => []
  | fuel + 1, freeroom, rptr, buf =>
    if size > freeroom then
      let ev := parse_event buf rptr
      let next := rptr + ev.evsize
      let next := if next ≥ endptr then 0 else next
      ev.f :: scan_owners size endptr fuel (freeroom + (ev.evsize : Int)) next buf
    else []

/-- The number of iterations of the loop of `ms_event_queue_clean`, among the first `fuel`. -/
def clean_count (size : Int) (endptr destroyed : Nat) : Nat → Int → Nat → (Nat → Nat) → Nat
  | 0, _, _, _ => 0
  | fuel + 1, freeroom, rptr, buf =>
    if size > freeroom then
      let ev := parse_event buf rptr
      let buf := if ev.f = destroyed then store_long buf rptr 0 else buf
      let rptr := rptr + ev.evsize
      let rptr := if rptr ≥ endptr then 0 else rptr
      clean_count size endptr destroyed fuel (freeroom + (ev.evsize : Int)) rptr buf + 1
    else 0

/-- The bound of the loops: `ceil((size - freeroom) / 16)`, `0` when nothing is in use. -/
def loop_bound (size freeroom : Int) : Nat := ((size - freeroom).toNat + 15) / 16

/-- The offsets at which the accepted events of a list of operations are written, in order. -/
def accepted_offsets (reg : Nat → Option (List MSNotifyContext)) : Run → List Op → List Nat
  | _, [] => []
  | r, Op.enqueue e :: ops =>
    (if r.q.freeroom < ((e.id &&& 0xff) + 16 : Nat) then [] else [write_pos r.q e.id])
      ++ accepted_offsets reg (Run.step reg r (Op.enqueue e)) ops
  | r, Op.drain :: ops => accepted_offsets reg (Run.step reg r Op.drain) ops

/-- The byte ranges `[start, stop)` of the records of a list of events written at a list of
offsets. -/
def record_ranges (es : List Event) (offs : List Nat) : List (Nat × Nat) :=
  (es.zip offs).map (fun x => (x.2, x.2 + x.1.record_size))

/-- An event for filter `1` with 240 payload bytes: a record of 256 bytes. -/
def even_event : Event := { f := 1, id := 0x1f0, arg := List.replicate 240 0 }

/-- Thirty-two records of 256 bytes: they fill an 8192 byte buffer to its last byte. -/
def exact_fill_ops : List QueueOp :=
  List.replicate 32 (QueueOp.enqueue even_event.f even_event.id even_event.arg)

/-- Bring both cursors to offset 8178 (thirty records of 271 bytes and three of 16, all
drained), then enqueue a 16 byte record: it does not fit in the 14 bytes left and goes to the
start of the buffer. -/
def short_tail_ops : List Op :=
  fill_ops ++ List.replicate 3 (Op.enqueue no_arg_event) ++ List.replicate 33 Op.drain
    ++ [Op.enqueue no_arg_event]

/-- The cursors of a queue on a buffer of `n` bytes are in range: `lim` and `size` are `n`,
`endptr` and `wptr` are at most `lim`, and `rptr` is below `lim`. -/
def cursors_in_range (n : Nat) (q : MSEventQueue) : Prop :=
  q.lim = n ∧ q.size = n ∧ q.endptr ≤ n ∧ q.wptr ≤ n ∧ q.rptr < n

/-! ## Memory lemmas -/

theorem land_255 (x : Nat) : x &&& 0xff = x % 256 :=
  Nat.and_pow_two_sub_one_eq_mod x 8

theorem load_store_long_same (buf : Nat → Nat) (p v : Nat) (hv : v < 2 ^ 64) :
    load_long (store_long buf p v) p = v := by
  simp only [load_long, store_long]
  simp
  omega

theorem load_store_long_other (buf : Nat → Nat) (p p' v : Nat) (h : p' + 8 ≤ p ∨ p + 8 ≤ p') :
    load_long (store_long buf p v) p' = load_long buf p' := by
  have hk : ∀ k, k < 8 → store_long buf p v (p' + k) = buf (p' + k) := by
    intro k hk
    simp only [store_long]
    rw [if_neg]
    omega
  have h0 := hk 0 (by omega)
  simp only [Nat.add_zero] at h0
  simp only [load_long, h0, hk 1 (by omega), hk 2 (by omega), hk 3 (by omega), hk 4 (by omega),
    hk 5 (by omega), hk 6 (by omega), hk 7 (by omega)]

theorem load_memcpy_other (buf : Nat → Nat) (d p' n : Nat) (src : List Nat)
    (h : p' + 8 ≤ d ∨ d + n ≤ p') :
    load_long (memcpy buf d src n) p' = load_long buf p' := by
  have hk : ∀ k, k < 8 → memcpy buf d src n (p' + k) = buf (p' + k) := by
    intro k hk
    simp only [memcpy]
    rw [if_neg]
    omega
  have h0 := hk 0 (by omega)
  simp only [Nat.add_zero] at h0
  simp only [load_long, h0, hk 1 (by omega), hk 2 (by omega), hk 3 (by omega), hk 4 (by omega),
    hk 5 (by omega), hk 6 (by omega), hk 7 (by omega)]

theorem bytes_at_memcpy_same (buf : Nat → Nat) (d : Nat) (src : List Nat)
    (hb : ∀ b ∈ src, b < 256) :
    bytes_at (memcpy buf d src src.length) d src.length = src := by
  apply List.ext_getElem
  · simp [bytes_at]
  · intro i h1 h2
    have hi : i < src.length := h2
    have hlt : src[i] < 256 := hb _ (List.getElem_mem _)
    simp [bytes_at, memcpy, hi, List.getD_eq_getElem, Nat.mod_eq_of_lt hlt]

/-! ## Loops and dispatch -/

theorem invoke_callbacks_eq_filter (cbs : List MSNotifyContext) (f id : Nat) (arg : List Nat)
    (mode : InvocationMode) (hf : f ≠ 0) :
    ms_filter_invoke_callbacks cbs f id arg mode
      = (cbs.filter (fun ctx => decide (mode = InvocationMode.Both
            ∨ (mode = InvocationMode.OnlyAsynchronous ∧ ctx.synchronous = false)
            ∨ (mode = InvocationMode.OnlySynchronous ∧ ctx.synchronous = true)))).map
          (fun ctx => { fn := ctx.fn, ud := ctx.ud, f := f, id := id, arg := arg }) := by
  induction cbs with
  | nil => simp [ms_filter_invoke_callbacks]
  | cons ctx rest ih =>
    rw [ms_filter_invoke_callbacks, if_neg hf, ih]
    by_cases hc : mode = InvocationMode.Both
        ∨ (mode = InvocationMode.OnlyAsynchronous ∧ ctx.synchronous = false)
        ∨ (mode = InvocationMode.OnlySynchronous ∧ ctx.synchronous = true)
    · rw [if_pos hc, List.filter_cons_of_pos (by simpa using hc)]
      simp
    · rw [if_neg hc, List.filter_cons_of_neg (by simpa using hc)]
      simp

theorem read_event_false (reg : Nat → Option (List MSNotifyContext)) (q : MSEventQueue)
    (h : q.size - q.freeroom ≤ 0) :
    read_event reg q = some { ret := false, q := q, calls := [] } := by
  unfold read_event
  simp only
  rw [if_neg (by omega)]

/-- The queue `read_event` leaves when it returns `TRUE`: `rptr` is past the decoded record
(back at the start when that reaches `endptr`), `freeroom` is up by the size of the record,
`current_notifier` is null after a dispatch, and nothing else has changed. -/
theorem read_event_true (reg : Nat → Option (List MSNotifyContext)) (q : MSEventQueue)
    (r : ReadResult) (h : read_event reg q = some r) (hret : r.ret = true) :
    0 < q.size - q.freeroom
    ∧ r.q.size = q.size ∧ r.q.lim = q.lim ∧ r.q.endptr = q.endptr ∧ r.q.wptr = q.wptr
    ∧ r.q.buffer = q.buffer
    ∧ r.q.rptr = (if q.rptr + (parse_event q.buffer q.rptr).evsize ≥ q.endptr then 0
        else q.rptr + (parse_event q.buffer q.rptr).evsize)
    ∧ r.q.freeroom = q.freeroom + ((parse_event q.buffer q.rptr).evsize : Int)
    ∧ ((parse_event q.buffer q.rptr).f = 0
        ∨ (reg (parse_event q.buffer q.rptr).f).isSome = true) := by
  unfold read_event at h
  simp only at h
  by_cases ha : q.size - q.freeroom > 0
  · rw [if_pos ha] at h
    by_cases hf : (parse_event q.buffer q.rptr).f = 0
    · rw [if_neg (by simpa using hf)] at h
      cases h
      exact ⟨ha, rfl, rfl, rfl, rfl, rfl, rfl, rfl, Or.inl hf⟩
    · rw [if_pos hf] at h
      cases hreg : reg (parse_event q.buffer q.rptr).f with
      | none => rw [hreg] at h; cases h
      | some cbs =>
        rw [hreg] at h
        cases h
        exact ⟨ha, rfl, rfl, rfl, rfl, rfl, rfl, rfl, Or.inr rfl⟩
  · rw [if_neg ha] at h
    cases h
    cases hret

theorem read_event_false_result (reg : Nat → Option (List MSNotifyContext)) (q : MSEventQueue)
    (r : ReadResult) (h : read_event reg q = some r) (hret : r.ret = false) :
    r.q = q ∧ r.calls = [] ∧ q.size - q.freeroom ≤ 0 := by
  unfold read_event at h
  simp only at h
  by_cases ha : q.size - q.freeroom > 0
  · rw [if_pos ha] at h
    by_cases hf : (parse_event q.buffer q.rptr).f = 0
    · rw [if_neg (by simpa using hf)] at h
      cases h
      cases hret
    · rw [if_pos hf] at h
      cases hreg : reg (parse_event q.buffer q.rptr).f with
      | none => rw [hreg] at h; cases h
      | some cbs =>
        rw [hreg] at h
        cases h
        cases hret
  · rw [if_neg ha] at h
    cases h
    exact ⟨rfl, rfl, by omega⟩

theorem read_event_freeroom (reg : Nat → Option (List MSNotifyContext)) (q : MSEventQueue)
    (r : ReadResult) (h : read_event reg q = some r) (hret : r.ret = true) :
    r.q.size = q.size ∧ q.freeroom + 16 ≤ r.q.freeroom := by
  obtain ⟨_, h1, _, _, _, _, _, h7, _⟩ := read_event_true reg q r h hret
  refine ⟨h1, ?_⟩
  rw [h7]
  simp only [parse_event]
  push_cast
  omega

theorem pump_loop_drained (reg : Nat → Option (List MSNotifyContext)) (fuel : Nat) :
    ∀ (q : MSEventQueue) (res : MSEventQueue × List Invocation),
      (q.size - q.freeroom).toNat ≤ fuel → pump_loop reg fuel q = some res →
      res.1.size - res.1.freeroom ≤ 0 := by
  induction fuel with
  | zero =>
    intro q res h hp
    simp only [pump_loop] at hp
    cases hp
    show q.size - q.freeroom ≤ 0
    omega
  | succ n ih =>
    intro q res h hp
    simp only [pump_loop] at hp
    cases hr : read_event reg q with
    | none => rw [hr] at hp; cases hp
    | some r =>
      rw [hr] at hp
      simp only at hp
      by_cases hret : r.ret = true
      · rw [if_pos hret] at hp
        have hfr := read_event_freeroom reg q r hr hret
        cases hrest : pump_loop reg n r.q with
        | none => rw [hrest] at hp; cases hp
        | some rest =>
          rw [hrest] at hp
          cases hp
          exact ih r.q rest (by omega) hrest
      · rw [if_neg hret] at hp
        cases hp
        have hf := read_event_false_result reg q r hr (by simpa using hret)
        rw [hf.1]
        exact hf.2.2

/-- The loop of `ms_event_queue_pump` ends: when the pump has a result, the `size - freeroom`
iterations the model allows were enough, and in the queue it leaves `read_event` returns
`FALSE`. -/
theorem pump_drained (reg : Nat → Option (List MSNotifyContext)) (q : MSEventQueue)
    (res : MSEventQueue × List Invocation) (h : ms_event_queue_pump reg q = some res) :
    read_event reg res.1 = some { ret := false, q := res.1, calls := [] } :=
  read_event_false reg _
    (pump_loop_drained reg (q.size - q.freeroom).toNat q res (le_refl _) h)

/-! ## The codec -/

/-- The codec round trip: `parse_event` at the offset where an accepted `write_event` put
its record returns what was written. -/
theorem write_then_parse (q : MSEventQueue) (f ev_id : Nat) (arg : List Nat)
    (hf : f < 2 ^ 64) (hid : ev_id < 2 ^ 32) (hlen : arg.length = ev_id &&& 0xff)
    (hbytes : ∀ b ∈ arg, b < 256)
    (hroom : ((16 + arg.length : Nat) : Int) ≤ q.freeroom) :
    parse_event (write_event q f ev_id arg).buffer (write_pos q ev_id)
      = { f := f, id := ev_id, data := write_pos q ev_id + 16, argsize := ev_id &&& 0xff,
          evsize := 16 + (ev_id &&& 0xff) }
    ∧ bytes_at (write_event q f ev_id arg).buffer
        (parse_event (write_event q f ev_id arg).buffer (write_pos q ev_id)).data
        (parse_event (write_event q f ev_id arg).buffer (write_pos q ev_id)).argsize = arg := by
  have hbuf : (write_event q f ev_id arg).buffer
      = if (ev_id &&& 0xff) > 0
        then memcpy (store_long (store_long q.buffer (write_pos q ev_id) (f % 2 ^ 64))
          (write_pos q ev_id + 8) ev_id) (write_pos q ev_id + 16) arg (ev_id &&& 0xff)
        else store_long (store_long q.buffer (write_pos q ev_id) (f % 2 ^ 64))
          (write_pos q ev_id + 8) ev_id := by
    unfold write_event write_pos
    simp only
    rw [if_neg (by rw [← hlen]; push_cast at hroom ⊢; omega)]
  have hfm : f % 2 ^ 64 = f := Nat.mod_eq_of_lt hf
  have hid64 : ev_id < 2 ^ 64 := lt_trans hid (by norm_num)
  have hparse : parse_event (write_event q f ev_id arg).buffer (write_pos q ev_id)
      = { f := f, id := ev_id, data := write_pos q ev_id + 16, argsize := ev_id &&& 0xff,
          evsize := 16 + (ev_id &&& 0xff) } := by
    have h1 : load_long (write_event q f ev_id arg).buffer (write_pos q ev_id) = f := by
      rw [hbuf]
      split
      · rw [load_memcpy_other _ _ _ _ _ (Or.inl (by omega)),
          load_store_long_other _ _ _ _ (Or.inl (by omega)),
          load_store_long_same _ _ _ (by rw [hfm]; exact hf), hfm]
      · rw [load_store_long_other _ _ _ _ (Or.inl (by omega)),
          load_store_long_same _ _ _ (by rw [hfm]; exact hf), hfm]
    have h2 : load_long (write_event q f ev_id arg).buffer (write_pos q ev_id + 8) = ev_id := by
      rw [hbuf]
      split
      · rw [load_memcpy_other _ _ _ _ _ (Or.inl (by omega)),
          load_store_long_same _ _ _ hid64]
      · rw [load_store_long_same _ _ _ hid64]
    simp only [parse_event, h1, h2, Nat.mod_eq_of_lt hid]
    simp [Nat.add_comm]
  refine ⟨hparse, ?_⟩
  rw [hparse]
  simp only
  rw [hbuf]
  by_cases h0 : (ev_id &&& 0xff) > 0
  · rw [if_pos h0, ← hlen]
    exact bytes_at_memcpy_same _ _ _ hbytes
  · have hz : (ev_id &&& 0xff) = 0 := by omega
    have hnil : arg = [] := List.length_eq_zero.mp (by rw [hlen, hz])
    rw [hz, hnil]
    rfl

/-! ## Runs without a wrap -/

theorem total_size_nil : total_size [] = 0 := rfl

theorem total_size_cons (e : Event) (es : List Event) :
    total_size (e :: es) = e.record_size + total_size es := by
  simp [total_size]

theorem total_size_append (es es' : List Event) :
    total_size (es ++ es') = total_size es + total_size es' := by
  simp [total_size]

theorem record_size_ge (e : Event) : 16 ≤ e.record_size := by
  simp [Event.record_size]

theorem load_long_congr (buf buf' : Nat → Nat) (p : Nat)
    (h : ∀ i, p ≤ i → i < p + 8 → buf' i = buf i) :
    load_long buf' p = load_long buf p := by
  have h0 := h p (by omega) (by omega)
  simp only [load_long, h0, h (p + 1) (by omega) (by omega), h (p + 2) (by omega) (by omega),
    h (p + 3) (by omega) (by omega), h (p + 4) (by omega) (by omega),
    h (p + 5) (by omega) (by omega), h (p + 6) (by omega) (by omega),
    h (p + 7) (by omega) (by omega)]

theorem parse_event_congr (buf buf' : Nat → Nat) (p : Nat)
    (h : ∀ i, p ≤ i → i < p + 16 → buf' i = buf i) :
    parse_event buf' p = parse_event buf p := by
  have h1 := load_long_congr buf buf' p (fun i h1 h2 => h i h1 (by omega))
  have h2 := load_long_congr buf buf' (p + 8) (fun i h1 h2 => h i (by omega) (by omega))
  simp only [parse_event, h1, h2]

theorem bytes_at_congr (buf buf' : Nat → Nat) (p n : Nat)
    (h : ∀ i, p ≤ i → i < p + n → buf' i = buf i) :
    bytes_at buf' p n = bytes_at buf p n := by
  simp only [bytes_at]
  apply List.map_congr_left
  intro k hk
  have hk' : k < n := List.mem_range.mp hk
  exact h (p + k) (by omega) (by omega)

theorem records_at_congr (buf buf' : Nat → Nat) (es : List Event) :
    ∀ p, (∀ i, p ≤ i → i < p + total_size es → buf' i = buf i) →
      records_at buf p es → records_at buf' p es := by
  induction es with
  | nil => intro p _ _; trivial
  | cons e es ih =>
    intro p h hr
    rw [total_size_cons] at h
    have hsz : e.record_size = 16 + (e.id &&& 0xff) := rfl
    obtain ⟨h1, h2, h3⟩ := hr
    refine ⟨?_, ?_, ?_⟩
    · rw [parse_event_congr buf buf' p (fun i hi1 hi2 => h i hi1 (by omega))]
      exact h1
    · rw [bytes_at_congr buf buf' (p + 16) _ (fun i hi1 hi2 => h i (by omega) (by omega))]
      exact h2
    · exact ih (p + e.record_size) (fun i hi1 hi2 => h i (by omega) (by omega)) h3

theorem records_at_append (buf : Nat → Nat) (es : List Event) (e : Event) :
    ∀ p, records_at buf p es → records_at buf (p + total_size es) [e] →
      records_at buf p (es ++ [e]) := by
  induction es with
  | nil =>
    intro p _ h
    simpa [total_size] using h
  | cons e' es ih =>
    intro p hr h
    obtain ⟨h1, h2, h3⟩ := hr
    refine ⟨h1, h2, ?_⟩
    apply ih _ h3
    rw [total_size_cons] at h
    rw [Nat.add_assoc]
    exact h

/-- What an accepted `write_event` does when the record fits before `lim`: the record goes to
`wptr`, `wptr` moves past it and `freeroom` goes down by its size. -/
theorem write_event_no_wrap (q : MSEventQueue) (e : Event)
    (hroom : (e.record_size : Int) ≤ q.freeroom) (hfit : q.wptr + e.record_size ≤ q.lim) :
    (write_event q e.f e.id e.arg).rptr = q.rptr
    ∧ (write_event q e.f e.id e.arg).wptr = q.wptr + e.record_size
    ∧ (write_event q e.f e.id e.arg).endptr = q.endptr
    ∧ (write_event q e.f e.id e.arg).lim = q.lim
    ∧ (write_event q e.f e.id e.arg).size = q.size
    ∧ (write_event q e.f e.id e.arg).freeroom = q.freeroom - (e.record_size : Int)
    ∧ write_pos q e.id = q.wptr
    ∧ (∀ i, i < q.wptr → (write_event q e.f e.id e.arg).buffer i = q.buffer i) := by
  have hsz : e.record_size = 16 + (e.id &&& 0xff) := rfl
  have hnw : ¬ (q.wptr + ((e.id &&& 0xff) + 16) > q.lim) := by omega
  have hacc : ¬ (q.freeroom < (((e.id &&& 0xff) + 16 : Nat) : Int)) := by
    rw [hsz] at hroom
    push_cast at hroom ⊢
    omega
  unfold write_event write_pos
  simp only
  rw [if_neg hacc]
  simp only [if_neg hnw]
  refine ⟨trivial, ?_, trivial, trivial, trivial, ?_, trivial, ?_⟩
  · omega
  · rw [hsz]
    push_cast
    omega
  · intro i hi
    split
    · simp only [memcpy, store_long]
      rw [if_neg (by omega), if_neg (by omega), if_neg (by omega)]
    · simp only [store_long]
      rw [if_neg (by omega), if_neg (by omega)]

theorem invoke_callbacks_null (cbs : List MSNotifyContext) (id : Nat) (arg : List Nat)
    (mode : InvocationMode) : ms_filter_invoke_callbacks cbs 0 id arg mode = [] := by
  cases cbs <;> simp [ms_filter_invoke_callbacks]

theorem expected_calls_append (reg : Nat → Option (List MSNotifyContext)) (es es' : List Event) :
    expected_calls reg (es ++ es') = expected_calls reg es ++ expected_calls reg es' := by
  induction es with
  | nil => rfl
  | cons e es ih => simp [expected_calls, ih]

/-- What `read_event` does when the record of the event `e` is at `rptr`, its owner is null or
a filter and `size - freeroom > 0`: it returns `TRUE`, invokes the asynchronous callbacks of
the filter of `e` with its id and payload, moves `rptr` past the record and gives its bytes
back. -/
theorem read_event_record (reg : Nat → Option (List MSNotifyContext)) (q : MSEventQueue)
    (e : Event) (es : List Event) (hrec : records_at q.buffer q.rptr (e :: es))
    (hown : e.owned reg) (havail : 0 < q.size - q.freeroom) :
    ∃ r, read_event reg q = some r
    ∧ r.ret = true
    ∧ r.calls = ms_filter_invoke_callbacks ((reg e.f).getD []) e.f e.id e.arg
        InvocationMode.OnlyAsynchronous
    ∧ r.q.rptr = (if q.rptr + e.record_size ≥ q.endptr then 0 else q.rptr + e.record_size)
    ∧ r.q.freeroom = q.freeroom + (e.record_size : Int)
    ∧ r.q.wptr = q.wptr
    ∧ r.q.endptr = q.endptr
    ∧ r.q.lim = q.lim
    ∧ r.q.size = q.size
    ∧ r.q.buffer = q.buffer := by
  obtain ⟨h1, h2, _⟩ := hrec
  have hsz : e.record_size = 16 + (e.id &&& 0xff) := rfl
  have harg : (if (e.id &&& 0xff) > 0 then bytes_at q.buffer (q.rptr + 16) (e.id &&& 0xff)
      else []) = e.arg := by
    by_cases ha : (e.id &&& 0xff) > 0
    · rw [if_pos ha, h2]
    · rw [if_neg ha]
      have hz : (e.id &&& 0xff) = 0 := by omega
      rw [hz] at h2
      rw [← h2]
      rfl
  unfold read_event
  simp only
  rw [if_pos (by omega)]
  simp only [h1]
  by_cases hf : e.f = 0
  · rw [if_neg (by simpa using hf)]
    refine ⟨_, rfl, rfl, ?_, ?_, ?_, rfl, rfl, rfl, rfl, rfl⟩
    · rw [hf, invoke_callbacks_null]
    · show (if q.rptr + (16 + (e.id &&& 0xff)) ≥ q.endptr then 0
        else q.rptr + (16 + (e.id &&& 0xff))) = _
      rw [hsz]
    · show q.freeroom + ((16 + (e.id &&& 0xff) : Nat) : Int) = _
      rw [hsz]
  · rw [if_pos hf]
    rcases hown with h0 | hsome
    · exact absurd h0 hf
    · cases hreg : reg e.f with
      | none => rw [hreg] at hsome; cases hsome
      | some cbs =>
        simp only
        refine ⟨_, rfl, rfl, ?_, ?_, ?_, rfl, rfl, rfl, rfl, rfl⟩
        · show ms_filter_invoke_callbacks cbs e.f e.id _ _ = _
          rw [harg]
          rfl
        · show (if q.rptr + (16 + (e.id &&& 0xff)) ≥ q.endptr then 0
            else q.rptr + (16 + (e.id &&& 0xff))) = _
          rw [hsz]
        · show q.freeroom + ((16 + (e.id &&& 0xff) : Nat) : Int) = _
          rw [hsz]

theorem pump_loop_records (reg : Nat → Option (List MSNotifyContext)) (es : List Event) :
    ∀ (fuel : Nat) (q : MSEventQueue), es.length ≤ fuel →
      q.freeroom = q.size - (total_size es : Int) →
      (es = [] ∨ (records_at q.buffer q.rptr es ∧ q.rptr + total_size es ≤ q.endptr)) →
      (∀ e ∈ es, e.owned reg) →
      ∃ res, pump_loop reg fuel q = some res
        ∧ res.2 = expected_calls reg es
        ∧ res.1.freeroom = q.size := by
  induction es with
  | nil =>
    intro fuel q _ hfree _ _
    have hfalse := read_event_false reg q (by rw [hfree]; simp [total_size])
    have hf : q.freeroom = q.size := by rw [hfree]; simp [total_size]
    cases fuel with
    | zero => exact ⟨(q, []), rfl, rfl, hf⟩
    | succ k =>
      refine ⟨(q, []), ?_, rfl, hf⟩
      simp only [pump_loop, hfalse]
      rfl
  | cons e es ih =>
    intro fuel q hfuel hfree hrec hown
    rcases hrec with hnil | ⟨hrec, hend⟩
    · cases hnil
    have hge := record_size_ge e
    rw [total_size_cons] at hfree hend
    cases fuel with
    | zero => simp at hfuel
    | succ k =>
      obtain ⟨r, hr, r1, r2, r3, r4, _, r6, _, r8, r9⟩ :=
        read_event_record reg q e es hrec (hown e (by simp))
          (by rw [hfree]; push_cast; omega)
      obtain ⟨rest, hrest, n1, n2⟩ := ih k r.q (by simpa using hfuel)
        (by rw [r4, r8, hfree]; push_cast; omega)
        (by
          cases es with
          | nil => exact Or.inl rfl
          | cons e' es' =>
            right
            have hge' := record_size_ge e'
            rw [total_size_cons] at hend ⊢
            have hlt : ¬ (q.rptr + e.record_size ≥ q.endptr) := by omega
            rw [r3, if_neg hlt, r9, r6]
            exact ⟨hrec.2.2, by omega⟩)
        (fun e' he' => hown e' (List.mem_cons_of_mem _ he'))
      refine ⟨(rest.1, r.calls ++ rest.2), ?_, ?_, ?_⟩
      · simp only [pump_loop, hr, r1, if_true, hrest]
      · show r.calls ++ rest.2 = _
        rw [n1, r2]
        rfl
      · show rest.1.freeroom = _
        rw [n2, r8]

theorem wrap_free_start (reg : Nat → Option (List MSNotifyContext)) (n : Nat) :
    Run.wrap_free reg n (Run.start n) := by
  refine ⟨[], [], rfl, rfl, rfl, rfl, rfl, ?_, rfl, ?_, trivial, Or.inl rfl, rfl, rfl, ?_⟩
  · simp [Run.start, total_size]
  · simp [Run.start, ms_event_queue_new, total_size]
  · intro e he
    simp [Run.start] at he

theorem wrap_free_enqueue (reg : Nat → Option (List MSNotifyContext)) (n : Nat) (r : Run)
    (e : Event) (hinv : Run.wrap_free reg n r) (hv : e.valid) (hown : e.owned reg)
    (hfit : total_size r.accepted + e.record_size ≤ n) :
    Run.wrap_free reg n (Run.step reg r (Op.enqueue e))
    ∧ (Run.step reg r (Op.enqueue e)).accepted = r.accepted ++ [e] := by
  obtain ⟨done, pend, hacc, hdr, hsize, hlim, hend, htot, hw, hfree, hrec, hr, hcalls, hfault,
    howned⟩ := hinv
  obtain ⟨hf, hid, hlen, hbytes⟩ := hv
  have hge := record_size_ge e
  have hsz : e.record_size = 16 + (e.id &&& 0xff) := rfl
  have htp : total_size r.accepted = total_size done + total_size pend := by
    rw [hacc, total_size_append]
  have hroom : (e.record_size : Int) ≤ r.q.freeroom := by
    rw [hfree]
    omega
  have hroom' : ((16 + e.arg.length : Nat) : Int) ≤ r.q.freeroom := by
    rw [hlen, ← hsz]
    exact hroom
  obtain ⟨w1, w2, w3, w4, w5, w6, w7, w8⟩ :=
    write_event_no_wrap r.q e hroom (by rw [hw, hlim]; exact hfit)
  obtain ⟨p1, p2⟩ := write_then_parse r.q e.f e.id e.arg hf hid hlen hbytes hroom'
  have hnotdrop : ¬ (r.q.freeroom < (((e.id &&& 0xff) + 16 : Nat) : Int)) := by
    rw [hsz] at hroom
    push_cast at hroom ⊢
    omega
  have hstep : Run.step reg r (Op.enqueue e)
      = { r with q := write_event r.q e.f e.id e.arg, accepted := r.accepted ++ [e] } := by
    simp only [Run.step, hfault, Bool.false_eq_true, ↓reduceIte, if_neg hnotdrop]
  rw [hstep]
  refine ⟨⟨done, pend ++ [e], ?_, hdr, ?_, ?_, ?_, ?_, ?_, ?_, ?_, ?_, hcalls, hfault, ?_⟩, rfl⟩
  · show r.accepted ++ [e] = _
    rw [hacc, List.append_assoc]
  · show (write_event r.q e.f e.id e.arg).size = n
    rw [w5, hsize]
  · show (write_event r.q e.f e.id e.arg).lim = n
    rw [w4, hlim]
  · show (write_event r.q e.f e.id e.arg).endptr = n
    rw [w3, hend]
  · show total_size (r.accepted ++ [e]) ≤ n
    rw [total_size_append, total_size_cons, total_size_nil]
    omega
  · show (write_event r.q e.f e.id e.arg).wptr = total_size (r.accepted ++ [e])
    rw [w2, total_size_append, total_size_cons, total_size_nil, hw]
    omega
  · show (write_event r.q e.f e.id e.arg).freeroom = _
    rw [w6, hfree, total_size_append, total_size_cons, total_size_nil]
    push_cast
    omega
  · show records_at (write_event r.q e.f e.id e.arg).buffer (total_size done) (pend ++ [e])
    apply records_at_append
    · apply records_at_congr r.q.buffer _ pend _ _ hrec
      intro i _ hi2
      exact w8 i (by rw [hw, htp]; exact hi2)
    · rw [w7, hw, htp] at p1 p2
      rw [p1] at p2
      exact ⟨p1, p2, trivial⟩
  · left
    show (write_event r.q e.f e.id e.arg).rptr = _
    rw [w1]
    rcases hr with hr | ⟨_, hfull⟩
    · exact hr
    · omega
  · intro e' he'
    have he'' : e' ∈ r.accepted ++ [e] := he'
    rcases List.mem_append.mp he'' with h | h
    · exact howned e' h
    · rw [List.mem_singleton.mp h]
      exact hown

theorem wrap_free_drain (reg : Nat → Option (List MSNotifyContext)) (n : Nat) (r : Run)
    (hinv : Run.wrap_free reg n r) :
    Run.wrap_free reg n (Run.step reg r Op.drain)
    ∧ (Run.step reg r Op.drain).accepted = r.accepted := by
  obtain ⟨done, pend, hacc, hdr, hsize, hlim, hend, htot, hw, hfree, hrec, hr, hcalls, hfault,
    howned⟩ := hinv
  cases pend with
  | nil =>
    have hfalse := read_event_false reg r.q (by rw [hfree, hsize]; simp [total_size])
    have hq : (Run.step reg r Op.drain).q = r.q := by
      simp [Run.step, hfault, hfalse]
    have hd : (Run.step reg r Op.drain).drained = r.drained := by
      simp [Run.step, hfault, hfalse]
    have hc : (Run.step reg r Op.drain).calls = r.calls := by
      simp [Run.step, hfault, hfalse]
    have ha : (Run.step reg r Op.drain).accepted = r.accepted := by
      simp [Run.step, hfault, hfalse]
    have hfa : (Run.step reg r Op.drain).fault = false := by
      simp [Run.step, hfault, hfalse]
    refine ⟨⟨done, [], ?_, ?_, ?_, ?_, ?_, ?_, ?_, ?_, trivial, ?_, ?_, hfa, ?_⟩, ha⟩
    · rw [ha]; exact hacc
    · rw [hd]; exact hdr
    · rw [hq]; exact hsize
    · rw [hq]; exact hlim
    · rw [hq]; exact hend
    · rw [ha]; exact htot
    · rw [hq, ha]; exact hw
    · rw [hq]; exact hfree
    · rw [hq, ha]; exact hr
    · rw [hc]; exact hcalls
    · rw [ha]; exact howned
  | cons e rest =>
    have hge := record_size_ge e
    have htp : total_size r.accepted = total_size done + (e.record_size + total_size rest) := by
      rw [hacc, total_size_append, total_size_cons]
    rw [total_size_cons] at hfree
    have hrptr : r.q.rptr = total_size done := by
      rcases hr with hr | ⟨hnil, _⟩
      · exact hr
      · cases hnil
    rw [← hrptr] at hrec
    obtain ⟨res, hres, r1, r2, r3, r4, r5, r6, r7, r8, r9⟩ :=
      read_event_record reg r.q e rest hrec (howned e (by rw [hacc]; simp))
        (by rw [hfree, hsize]; push_cast; omega)
    have hstep : Run.step reg r Op.drain
        = { r with q := res.q, drained := r.drained + 1, calls := r.calls ++ res.calls } := by
      simp only [Run.step, hfault, Bool.false_eq_true, ↓reduceIte, hres, r1]
    rw [hstep]
    refine ⟨⟨done ++ [e], rest, ?_, ?_, ?_, ?_, ?_, htot, ?_, ?_, ?_, ?_, ?_, hfault, howned⟩,
      rfl⟩
    · show r.accepted = _
      rw [hacc, List.append_assoc]
      rfl
    · show r.drained + 1 = _
      rw [hdr, List.length_append, List.length_singleton]
    · show res.q.size = n
      rw [r8, hsize]
    · show res.q.lim = n
      rw [r7, hlim]
    · show res.q.endptr = n
      rw [r6, hend]
    · show res.q.wptr = _
      rw [r5, hw]
    · show res.q.freeroom = _
      rw [r4, hfree]
      push_cast
      omega
    · show records_at res.q.buffer _ rest
      rw [r9, total_size_append, total_size_cons, total_size_nil, ← hrptr]
      exact hrec.2.2
    · show res.q.rptr = total_size (done ++ [e]) ∨ (rest = [] ∧ total_size r.accepted = n)
      rw [r3, hend, total_size_append, total_size_cons, total_size_nil, hrptr]
      by_cases hfull : total_size done + e.record_size ≥ n
      · right
        have hrest : total_size rest = 0 := by omega
        refine ⟨?_, by omega⟩
        cases rest with
        | nil => rfl
        | cons e' es' =>
          have hge' := record_size_ge e'
          rw [total_size_cons] at hrest
          omega
      · left
        rw [if_neg hfull]
        omega
    · show r.calls ++ res.calls = _
      rw [r2, hcalls, expected_calls_append]
      simp [expected_calls]

theorem wrap_free_exec (reg : Nat → Option (List MSNotifyContext)) (n : Nat) (ops : List Op) :
    ∀ r : Run, Run.wrap_free reg n r →
      (∀ e, Op.enqueue e ∈ ops → e.valid) →
      (∀ e, Op.enqueue e ∈ ops → e.owned reg) →
      total_size r.accepted + total_size (enqueued ops) ≤ n →
      Run.wrap_free reg n (Run.exec reg r ops)
      ∧ (Run.exec reg r ops).accepted = r.accepted ++ enqueued ops := by
  induction ops with
  | nil =>
    intro r hinv _ _ _
    exact ⟨hinv, by simp [Run.exec, enqueued]⟩
  | cons op ops ih =>
    intro r hinv hv ho hfit
    cases op with
    | enqueue e =>
      simp only [enqueued, total_size_cons] at hfit
      obtain ⟨h1, h2⟩ := wrap_free_enqueue reg n r e hinv (hv e (by simp)) (ho e (by simp))
        (by omega)
      obtain ⟨h3, h4⟩ := ih (Run.step reg r (Op.enqueue e)) h1
        (fun e' he' => hv e' (List.mem_cons_of_mem _ he'))
        (fun e' he' => ho e' (List.mem_cons_of_mem _ he'))
        (by rw [h2, total_size_append, total_size_cons, total_size_nil]; omega)
      refine ⟨h3, ?_⟩
      show (Run.exec reg (Run.step reg r (Op.enqueue e)) ops).accepted = _
      rw [h4, h2]
      simp [enqueued]
    | drain =>
      simp only [enqueued] at hfit
      obtain ⟨h1, h2⟩ := wrap_free_drain reg n r hinv
      obtain ⟨h3, h4⟩ := ih (Run.step reg r Op.drain) h1
        (fun e' he' => hv e' (List.mem_cons_of_mem _ he'))
        (fun e' he' => ho e' (List.mem_cons_of_mem _ he'))
        (by rw [h2]; exact hfit)
      refine ⟨h3, ?_⟩
      show (Run.exec reg (Run.step reg r Op.drain) ops).accepted = _
      rw [h4, h2]
      simp [enqueued]

theorem length_le_total_size (es : List Event) : es.length ≤ total_size es := by
  induction es with
  | nil => simp
  | cons e es ih =>
    have := record_size_ge e
    rw [total_size_cons, List.length_cons]
    omega

/-- As long as no `write_event` has to wrap, the queue is a FIFO.  On a new queue of `n` bytes,
for operations whose enqueued events are well-formed, have a null owner or a filter for owner
and together take at most `n` bytes: every event is accepted, every `read_event` has a result,
`freeroom` plus the bytes of the pending records is `size`, the callbacks invoked by the drains
are those of the drained events in enqueue order, and a pump has a result: it invokes those of
the pending events in enqueue order and leaves `freeroom == size`. -/
theorem wrap_free_run_fifo (reg : Nat → Option (List MSNotifyContext)) (n : Nat) (ops : List Op)
    (hvalid : ∀ e, Op.enqueue e ∈ ops → e.valid)
    (howned : ∀ e, Op.enqueue e ∈ ops → e.owned reg)
    (hfit : total_size (enqueued ops) ≤ n) :
    (Run.exec reg (Run.start n) ops).accepted = enqueued ops
    ∧ (Run.exec reg (Run.start n) ops).fault = false
    ∧ (Run.exec reg (Run.start n) ops).q.freeroom
        + ((Run.exec reg (Run.start n) ops).bytes_in_use : Int)
        = (Run.exec reg (Run.start n) ops).q.size
    ∧ (Run.exec reg (Run.start n) ops).calls
        = expected_calls reg
            ((Run.exec reg (Run.start n) ops).accepted.take
              (Run.exec reg (Run.start n) ops).drained)
    ∧ ∃ res, ms_event_queue_pump reg (Run.exec reg (Run.start n) ops).q = some res
        ∧ res.2 = expected_calls reg (Run.exec reg (Run.start n) ops).pending
        ∧ res.1.freeroom = (Run.exec reg (Run.start n) ops).q.size := by
  obtain ⟨hinv, hacc⟩ := wrap_free_exec reg n ops (Run.start n) (wrap_free_start reg n) hvalid
    howned (by simpa [Run.start, total_size] using hfit)
  obtain ⟨done, pend, hacc', hdr, hsize, hlim, hend, htot, hw, hfree, hrec, hr, hcalls, hfault,
    hown⟩ := hinv
  have hpend : (Run.exec reg (Run.start n) ops).pending = pend := by
    simp only [Run.pending]
    rw [hacc', hdr, List.drop_left]
  have htake : (Run.exec reg (Run.start n) ops).accepted.take
      (Run.exec reg (Run.start n) ops).drained = done := by
    rw [hacc', hdr, List.take_left]
  have hlen := length_le_total_size pend
  obtain ⟨res, hres, p1, p2⟩ := pump_loop_records reg pend
    ((Run.exec reg (Run.start n) ops).q.size - (Run.exec reg (Run.start n) ops).q.freeroom).toNat
    (Run.exec reg (Run.start n) ops).q
    (by rw [hfree, hsize]; omega)
    (by rw [hfree, hsize])
    (by
      rcases hr with hr | ⟨hnil, _⟩
      · right
        rw [hr, hend]
        refine ⟨hrec, ?_⟩
        rw [hacc', total_size_append] at htot
        exact htot
      · exact Or.inl hnil)
    (fun e he => hown e (by rw [hacc']; exact List.mem_append_right _ he))
  refine ⟨by simpa [Run.start] using hacc, hfault, ?_, ?_, res, hres, ?_, p2⟩
  · simp only [Run.bytes_in_use]
    rw [hpend, hfree, hsize]
    simp [total_size]
  · rw [htake, hcalls]
  · rw [hpend]
    exact p1

/-! ## Cleanup on runs without a wrap -/

theorem neutralize_record_size (d : Nat) (e : Event) :
    (e.neutralize d).record_size = e.record_size := by
  unfold Event.neutralize
  split <;> rfl

theorem total_size_neutralize (d : Nat) (es : List Event) :
    total_size (es.map (Event.neutralize d)) = total_size es := by
  induction es with
  | nil => rfl
  | cons e es ih => rw [List.map_cons, total_size_cons, total_size_cons, ih, neutralize_record_size]

theorem expected_calls_neutralize (reg : Nat → Option (List MSNotifyContext)) (d : Nat)
    (es : List Event) :
    expected_calls reg (es.map (Event.neutralize d))
      = expected_calls reg (es.filter (fun e => decide (e.f ≠ d))) := by
  induction es with
  | nil => rfl
  | cons e es ih =>
    rw [List.map_cons]
    by_cases h : e.f = d
    · rw [List.filter_cons_of_neg (by simpa using h)]
      simp only [expected_calls, ih]
      simp [Event.neutralize, h, invoke_callbacks_null]
    · rw [List.filter_cons_of_pos (by simpa using h)]
      simp only [expected_calls, ih]
      simp [Event.neutralize, h]

theorem expected_calls_owner (reg : Nat → Option (List MSNotifyContext)) (es : List Event) :
    ∀ c ∈ expected_calls reg es, ∃ e ∈ es, c.f = e.f ∧ e.f ≠ 0 := by
  induction es with
  | nil => intro c hc; simp [expected_calls] at hc
  | cons e es ih =>
    intro c hc
    simp only [expected_calls, List.mem_append] at hc
    rcases hc with hc | hc
    · by_cases hf : e.f = 0
      · rw [hf, invoke_callbacks_null] at hc
        simp at hc
      · rw [invoke_callbacks_eq_filter _ _ _ _ _ hf] at hc
        simp only [List.mem_map] at hc
        obtain ⟨ctx, _, hctx⟩ := hc
        exact ⟨e, by simp, by rw [← hctx], hf⟩
    · obtain ⟨e', he', h⟩ := ih c hc
      exact ⟨e', List.mem_cons_of_mem _ he', h⟩

theorem total_size_pos (es : List Event) (h : es ≠ []) : 16 ≤ total_size es := by
  cases es with
  | nil => exact absurd rfl h
  | cons e es =>
    have := record_size_ge e
    rw [total_size_cons]
    omega

/-- The scan of `ms_event_queue_clean` over records laid out from `rptr`: every record whose
owner is `destroyed` gets a null owner field, and nothing else in the buffer changes. -/
theorem clean_loop_records (size : Int) (endptr destroyed : Nat) (es : List Event) :
    ∀ (fuel : Nat) (freeroom : Int) (rptr : Nat) (buf : Nat → Nat), es.length ≤ fuel →
      freeroom = size - (total_size es : Int) →
      (es = [] ∨ (records_at buf rptr es ∧ rptr + total_size es ≤ endptr)) →
      records_at (clean_loop size endptr destroyed fuel freeroom rptr buf) rptr
          (es.map (Event.neutralize destroyed))
      ∧ (es = [] → clean_loop size endptr destroyed fuel freeroom rptr buf = buf)
      ∧ (∀ i, i < rptr ∨ rptr + total_size es ≤ i →
          clean_loop size endptr destroyed fuel freeroom rptr buf i = buf i) := by
  induction es with
  | nil =>
    intro fuel freeroom rptr buf _ hfree _
    have hstop : ¬ (size > freeroom) := by rw [hfree]; simp [total_size]
    have hbuf : clean_loop size endptr destroyed fuel freeroom rptr buf = buf := by
      cases fuel with
      | zero => rfl
      | succ k => simp only [clean_loop, if_neg hstop]
    exact ⟨trivial, fun _ => hbuf, fun i _ => by rw [hbuf]⟩
  | cons e es ih =>
    intro fuel freeroom rptr buf hfuel hfree hrec
    rcases hrec with hnil | ⟨hrec, hend⟩
    · cases hnil
    have hge := record_size_ge e
    have hsz : e.record_size = 16 + (e.id &&& 0xff) := rfl
    rw [total_size_cons] at hfree hend
    obtain ⟨h1, h2, h3⟩ := hrec
    cases fuel with
    | zero => simp at hfuel
    | succ k =>
      have hgo : size > freeroom := by rw [hfree]; push_cast; omega
      simp only [clean_loop, if_pos hgo, h1]
      rw [← hsz]
      -- the buffer after the store of this iteration
      have hframe : ∀ i, i < rptr ∨ rptr + 8 ≤ i →
          (if e.f = destroyed then store_long buf rptr 0 else buf) i = buf i := by
        intro i hi
        split
        · simp only [store_long]
          rw [if_neg (by omega)]
        · rfl
      have hparse1 : parse_event (if e.f = destroyed then store_long buf rptr 0 else buf) rptr
          = { f := (e.neutralize destroyed).f, id := (e.neutralize destroyed).id,
              data := rptr + 16, argsize := (e.neutralize destroyed).id &&& 0xff,
              evsize := 16 + ((e.neutralize destroyed).id &&& 0xff) } := by
        by_cases hd : e.f = destroyed
        · have hl1 : load_long (store_long buf rptr 0) rptr = 0 :=
            load_store_long_same buf rptr 0 (by norm_num)
          have hl2 : load_long (store_long buf rptr 0) (rptr + 8) = load_long buf (rptr + 8) :=
            load_store_long_other buf rptr (rptr + 8) 0 (Or.inr (by omega))
          have hp := h1
          simp only [parse_event, ParsedEvent.mk.injEq] at hp
          simp only [parse_event, if_pos hd, hl1, hl2, Event.neutralize, ParsedEvent.mk.injEq]
          exact ⟨trivial, hp.2.1, hp.2.2.1, hp.2.2.2.1, hp.2.2.2.2⟩
        · simp only [Event.neutralize, if_neg hd]
          exact h1
      have hbytes1 : bytes_at (if e.f = destroyed then store_long buf rptr 0 else buf)
          (rptr + 16) ((e.neutralize destroyed).id &&& 0xff) = (e.neutralize destroyed).arg := by
        have hid : (e.neutralize destroyed).id = e.id := by
          unfold Event.neutralize; split <;> rfl
        have harg : (e.neutralize destroyed).arg = e.arg := by
          unfold Event.neutralize; split <;> rfl
        rw [hid, harg,
          bytes_at_congr buf _ (rptr + 16) _ (fun i hi1 hi2 => hframe i (Or.inr (by omega)))]
        exact h2
      have hrec1 : records_at (if e.f = destroyed then store_long buf rptr 0 else buf)
          (rptr + e.record_size) es :=
        records_at_congr buf _ es _ (fun i hi1 _ => hframe i (Or.inr (by omega))) h3
      by_cases hes : es = []
      · obtain ⟨_, i2, _⟩ := ih k (freeroom + (e.record_size : Int))
          (if rptr + e.record_size ≥ endptr then 0 else rptr + e.record_size)
          (if e.f = destroyed then store_long buf rptr 0 else buf)
          (by simpa using hfuel) (by rw [hfree]; push_cast; omega) (Or.inl hes)
        rw [i2 hes]
        refine ⟨⟨hparse1, hbytes1, ?_⟩, fun h => absurd h (List.cons_ne_nil _ _), ?_⟩
        · rw [hes]
          trivial
        · intro i hi
          rw [total_size_cons] at hi
          exact hframe i (by omega)
      · have hpos := total_size_pos es hes
        have hno : ¬ (rptr + e.record_size ≥ endptr) := by omega
        rw [if_neg hno]
        obtain ⟨i1, _, i3⟩ := ih k (freeroom + (e.record_size : Int)) (rptr + e.record_size)
          (if e.f = destroyed then store_long buf rptr 0 else buf)
          (by simpa using hfuel) (by rw [hfree]; push_cast; omega)
          (Or.inr ⟨hrec1, by omega⟩)
        refine ⟨⟨?_, ?_, ?_⟩, fun h => absurd h (List.cons_ne_nil _ _), ?_⟩
        · rw [parse_event_congr _ _ rptr (fun i hi1 hi2 => i3 i (Or.inl (by omega)))]
          exact hparse1
        · rw [bytes_at_congr _ _ (rptr + 16) _ (fun i hi1 hi2 => i3 i (Or.inl (by
            have : (e.neutralize destroyed).id = e.id := by
              unfold Event.neutralize; split <;> rfl
            rw [this] at hi2
            omega)))]
          exact hbytes1
        · rw [neutralize_record_size]
          exact i1
        · intro i hi
          rw [total_size_cons] at hi
          rw [i3 i (by omega)]
          exact hframe i (by omega)

/-- On a queue that has not wrapped, cleanup neutralizes.  On a new queue of `n` bytes, after
operations whose enqueued events are well-formed, have a null owner or a filter for owner and
together take at most `n` bytes, `ms_event_queue_clean(q, destroyed)` followed by a pump has a
result: the pump invokes the asynchronous callbacks of the pending events of the other filters,
in enqueue order, and no callback on `destroyed`. -/
theorem wrap_free_clean_then_pump (reg : Nat → Option (List MSNotifyContext)) (n : Nat)
    (ops : List Op) (destroyed : Nat) (hvalid : ∀ e, Op.enqueue e ∈ ops → e.valid)
    (howned : ∀ e, Op.enqueue e ∈ ops → e.owned reg)
    (hfit : total_size (enqueued ops) ≤ n) :
    ∃ res, ms_event_queue_pump reg
        (ms_event_queue_clean (Run.exec reg (Run.start n) ops).q destroyed) = some res
      ∧ res.2 = expected_calls reg
          ((Run.exec reg (Run.start n) ops).pending.filter (fun e => decide (e.f ≠ destroyed)))
      ∧ ∀ c ∈ res.2, c.f ≠ destroyed := by
  obtain ⟨hinv, _⟩ := wrap_free_exec reg n ops (Run.start n) (wrap_free_start reg n) hvalid
    howned (by simpa [Run.start, total_size] using hfit)
  obtain ⟨done, pend, hacc', hdr, hsize, hlim, hend, htot, hw, hfree, hrec, hr, hcalls, hfault,
    hown⟩ := hinv
  have hpend : (Run.exec reg (Run.start n) ops).pending = pend := by
    simp only [Run.pending]
    rw [hacc', hdr, List.drop_left]
  have hlen := length_le_total_size pend
  have hlay : pend = [] ∨ (records_at (Run.exec reg (Run.start n) ops).q.buffer
      (Run.exec reg (Run.start n) ops).q.rptr pend
      ∧ (Run.exec reg (Run.start n) ops).q.rptr + total_size pend
          ≤ (Run.exec reg (Run.start n) ops).q.endptr) := by
    rcases hr with hr | ⟨hnil, _⟩
    · right
      rw [hr, hend]
      refine ⟨hrec, ?_⟩
      rw [hacc', total_size_append] at htot
      exact htot
    · exact Or.inl hnil
  have hfuel : pend.length
      ≤ ((Run.exec reg (Run.start n) ops).q.size
          - (Run.exec reg (Run.start n) ops).q.freeroom).toNat := by
    rw [hfree, hsize]
    omega
  obtain ⟨c1, _, _⟩ := clean_loop_records (Run.exec reg (Run.start n) ops).q.size
    (Run.exec reg (Run.start n) ops).q.endptr destroyed pend
    ((Run.exec reg (Run.start n) ops).q.size
      - (Run.exec reg (Run.start n) ops).q.freeroom).toNat
    (Run.exec reg (Run.start n) ops).q.freeroom (Run.exec reg (Run.start n) ops).q.rptr
    (Run.exec reg (Run.start n) ops).q.buffer hfuel (by rw [hfree, hsize]) hlay
  obtain ⟨res, hres, p1, _⟩ := pump_loop_records reg (pend.map (Event.neutralize destroyed))
    ((ms_event_queue_clean (Run.exec reg (Run.start n) ops).q destroyed).size
      - (ms_event_queue_clean (Run.exec reg (Run.start n) ops).q destroyed).freeroom).toNat
    (ms_event_queue_clean (Run.exec reg (Run.start n) ops).q destroyed)
    (by rw [List.length_map]; exact hfuel)
    (by
      rw [total_size_neutralize]
      show (Run.exec reg (Run.start n) ops).q.freeroom
        = (Run.exec reg (Run.start n) ops).q.size - _
      rw [hfree, hsize])
    (by
      rcases hlay with hnil | ⟨_, hle⟩
      · left
        rw [hnil]
        rfl
      · right
        rw [total_size_neutralize]
        exact ⟨c1, hle⟩)
    (by
      intro e he
      obtain ⟨e0, he0, heq⟩ := List.mem_map.mp he
      have h0 : e0.owned reg := hown e0 (by rw [hacc']; exact List.mem_append_right _ he0)
      rw [← heq]
      unfold Event.neutralize
      split
      · exact Or.inl rfl
      · exact h0)
  have hcalls' : res.2 = expected_calls reg
      ((Run.exec reg (Run.start n) ops).pending.filter (fun e => decide (e.f ≠ destroyed))) := by
    rw [hpend, ← expected_calls_neutralize]
    exact p1
  refine ⟨res, hres, hcalls', ?_⟩
  intro c hc
  rw [hcalls'] at hc
  obtain ⟨e, he, hce, _⟩ := expected_calls_owner reg _ c hc
  rw [hce]
  simpa using (List.mem_filter.mp he).2

theorem late_event_valid : late_event.valid :=
  ⟨by decide, by decide, by decide, by decide⟩

theorem no_arg_event_valid : no_arg_event.valid :=
  ⟨by decide, by decide, by decide, by decide⟩

/-- The wrap-free theorems at work on a 128 byte buffer: two events of the filter `2` are
enqueued and the first is drained; a pump then delivers the second one, and after
`ms_event_queue_clean(q, 2)` it delivers nothing. -/
theorem wrap_free_example :
    (ms_event_queue_pump example_registry
        (Run.exec example_registry (Run.start 128)
          [Op.enqueue late_event, Op.enqueue no_arg_event, Op.drain]).q).map Prod.snd
      = some (expected_calls example_registry [no_arg_event])
    ∧ (ms_event_queue_pump example_registry
        (ms_event_queue_clean (Run.exec example_registry (Run.start 128)
          [Op.enqueue late_event, Op.enqueue no_arg_event, Op.drain]).q 2)).map Prod.snd
      = some (expected_calls example_registry []) := by
  have hmem : ∀ e, Op.enqueue e ∈ [Op.enqueue late_event, Op.enqueue no_arg_event, Op.drain] →
      e = late_event ∨ e = no_arg_event := by
    intro e he
    simpa only [List.mem_cons, Op.enqueue.injEq, List.mem_singleton, reduceCtorEq, or_false,
      List.not_mem_nil] using he
  have hvalid : ∀ e, Op.enqueue e ∈ [Op.enqueue late_event, Op.enqueue no_arg_event, Op.drain] →
      e.valid := by
    intro e he
    rcases hmem e he with h | h
    · rw [h]; exact late_event_valid
    · rw [h]; exact no_arg_event_valid
  have howned : ∀ e, Op.enqueue e ∈ [Op.enqueue late_event, Op.enqueue no_arg_event, Op.drain] →
      e.owned example_registry := by
    intro e he
    rcases hmem e he with h | h
    · rw [h]; exact Or.inr (by decide)
    · rw [h]; exact Or.inr (by decide)
  obtain ⟨_, _, _, _, res1, h1, h1c, _⟩ :=
    wrap_free_run_fifo example_registry 128 _ hvalid howned (by decide)
  obtain ⟨res2, h2, h2c, _⟩ :=
    wrap_free_clean_then_pump example_registry 128 _ 2 hvalid howned (by decide)
  rw [h1, h2]
  exact ⟨congrArg some h1c, congrArg some h2c⟩

/-! ## Notify, then pump -/

/-- An asynchronous entry gets the event at the pump.  For a filter at `f` whose list
`f->notify_callbacks` is `cbs`, with a new queue of `n` bytes designated and room for the
record: `ms_filter_notify` invokes the synchronous entries of the filter and writes the event
to the queue, and a pump of that queue then invokes the asynchronous entries, each with the id
and the payload of the event. -/
theorem notify_then_pump_new_queue (reg : Nat → Option (List MSNotifyContext))
    (cbs : List MSNotifyContext) (n f id : Nat) (arg : List Nat) (hreg : reg f = some cbs)
    (hf : f ≠ 0) (hcb : cbs ≠ [])
    (hv : Event.valid { f := f, id := id, arg := arg }) (hfit : 16 + (id &&& 0xff) ≤ n) :
    (ms_filter_notify
        { notify_callbacks := fun g => (reg g).getD [],
          ms_global_event_queue := some (ms_event_queue_new n),
          trace := [] } f id arg).trace
      = (cbs.filter (fun ctx => ctx.synchronous)).map
          (fun ctx => { fn := ctx.fn, ud := ctx.ud, f := f, id := id, arg := arg })
    ∧ (ms_filter_notify
        { notify_callbacks := fun g => (reg g).getD [],
          ms_global_event_queue := some (ms_event_queue_new n),
          trace := [] } f id arg).ms_global_event_queue
      = some (write_event (ms_event_queue_new n) f id arg)
    ∧ ∃ res, ms_event_queue_pump reg (write_event (ms_event_queue_new n) f id arg) = some res
      ∧ res.2 = (cbs.filter (fun ctx => !ctx.synchronous)).map
          (fun ctx => { fn := ctx.fn, ud := ctx.ud, f := f, id := id, arg := arg }) := by
  have hsync : ms_filter_invoke_callbacks cbs f id arg InvocationMode.OnlySynchronous
      = (cbs.filter (fun ctx => ctx.synchronous)).map
          (fun ctx => { fn := ctx.fn, ud := ctx.ud, f := f, id := id, arg := arg }) := by
    rw [invoke_callbacks_eq_filter _ _ _ _ _ hf]
    congr 1
    apply List.filter_congr
    intro ctx _
    cases ctx.synchronous <;> simp
  have hasync : ms_filter_invoke_callbacks cbs f id arg InvocationMode.OnlyAsynchronous
      = (cbs.filter (fun ctx => !ctx.synchronous)).map
          (fun ctx => { fn := ctx.fn, ud := ctx.ud, f := f, id := id, arg := arg }) := by
    rw [invoke_callbacks_eq_filter _ _ _ _ _ hf]
    congr 1
    apply List.filter_congr
    intro ctx _
    cases ctx.synchronous <;> simp
  have hops : ∀ e, Op.enqueue e ∈ [Op.enqueue { f := f, id := id, arg := arg }] → e.valid := by
    intro e he
    simp only [List.mem_singleton, Op.enqueue.injEq] at he
    rw [he]
    exact hv
  have hown : ∀ e, Op.enqueue e ∈ [Op.enqueue { f := f, id := id, arg := arg }] →
      e.owned reg := by
    intro e he
    simp only [List.mem_singleton, Op.enqueue.injEq] at he
    rw [he]
    exact Or.inr (by show (reg f).isSome = true; rw [hreg]; rfl)
  obtain ⟨hacc, _, _, _, res, hres, hcalls, _⟩ := wrap_free_run_fifo reg n
    [Op.enqueue { f := f, id := id, arg := arg }] hops hown
    (by simpa [enqueued, total_size, Event.record_size] using hfit)
  have hpend : (Run.exec reg (Run.start n)
      [Op.enqueue { f := f, id := id, arg := arg }]).pending
      = [{ f := f, id := id, arg := arg }] := by
    show List.drop 0 (Run.exec reg (Run.start n)
      [Op.enqueue { f := f, id := id, arg := arg }]).accepted = _
    rw [hacc]
    rfl
  rw [hpend] at hcalls
  have hq : (Run.exec reg (Run.start n) [Op.enqueue { f := f, id := id, arg := arg }]).q
      = write_event (ms_event_queue_new n) f id arg := rfl
  rw [hq] at hres
  have hgd : (reg f).getD [] = cbs := by rw [hreg]; rfl
  refine ⟨?_, ?_, res, hres, ?_⟩
  · simp only [ms_filter_notify, hgd, if_pos hcb, hsync, List.nil_append]
  · simp only [ms_filter_notify, hgd, if_pos hcb]
  · rw [hcalls]
    simp only [expected_calls, hgd, hasync, List.append_nil]

/-! ## The enqueue-time drop, the dispatcher, skip, the codec and the null owner -/

/-- C4. An event whose record size `16 + (ev_id & 0xff)` is larger than `freeroom` is dropped by
`write_event`: the queue afterwards is the queue before (same buffer bytes, `rptr`, `wptr`,
`endptr`, `freeroom`), so every record decodes as before at every offset and its payload bytes
are the same. -/
theorem write_event_drop_unchanged (q : MSEventQueue) (f ev_id : Nat) (arg : List Nat)
    (h : q.freeroom < ((16 + (ev_id &&& 0xff) : Nat) : Int)) :
    write_event q f ev_id arg = q
    ∧ (write_event q f ev_id arg).buffer = q.buffer
    ∧ (write_event q f ev_id arg).rptr = q.rptr
    ∧ (write_event q f ev_id arg).wptr = q.wptr
    ∧ (write_event q f ev_id arg).endptr = q.endptr
    ∧ (write_event q f ev_id arg).freeroom = q.freeroom
    ∧ (∀ p, parse_event (write_event q f ev_id arg).buffer p = parse_event q.buffer p)
    ∧ (∀ p n, bytes_at (write_event q f ev_id arg).buffer p n = bytes_at q.buffer p n) := by
  have hq : write_event q f ev_id arg = q := by
    unfold write_event
    simp only
    rw [if_pos (by push_cast at h ⊢; omega)]
  rw [hq]
  simp

theorem write_event_drop_unchanged_witness :
    (ms_event_queue_new 16).freeroom < ((16 + (1 &&& 0xff) : Nat) : Int)
    ∧ (write_event (ms_event_queue_new 16) 5 1 [9] = ms_event_queue_new 16
    ∧ (write_event (ms_event_queue_new 16) 5 1 [9]).buffer = (ms_event_queue_new 16).buffer
    ∧ (write_event (ms_event_queue_new 16) 5 1 [9]).rptr = (ms_event_queue_new 16).rptr
    ∧ (write_event (ms_event_queue_new 16) 5 1 [9]).wptr = (ms_event_queue_new 16).wptr
    ∧ (write_event (ms_event_queue_new 16) 5 1 [9]).endptr = (ms_event_queue_new 16).endptr
    ∧ (write_event (ms_event_queue_new 16) 5 1 [9]).freeroom = (ms_event_queue_new 16).freeroom
    ∧ (∀ p, parse_event (write_event (ms_event_queue_new 16) 5 1 [9]).buffer p
        = parse_event (ms_event_queue_new 16).buffer p)
    ∧ (∀ p n, bytes_at (write_event (ms_event_queue_new 16) 5 1 [9]).buffer p n
        = bytes_at (ms_event_queue_new 16).buffer p n)) :=
  ⟨by decide, write_event_drop_unchanged (ms_event_queue_new 16) 5 1 [9] (by decide)⟩

/-- C6. With a designated global queue `q`, `ms_filter_notify` on a filter `f` that has
registered callbacks calls exactly the entries with `synchronous` set, once each in list order
and with the given `id` and `arg`, calls no other entry, and then makes the one call
`write_event(q,f,id,arg)`; nothing else changes.  So no asynchronous entry is invoked before a
later pump. -/
theorem notify_with_global_queue (w : World) (q : MSEventQueue) (f id : Nat) (arg : List Nat)
    (hq : w.ms_global_event_queue = some q) (hcb : w.notify_callbacks f ≠ []) (hf : f ≠ 0) :
    ms_filter_notify w f id arg
      = { notify_callbacks := w.notify_callbacks,
          ms_global_event_queue := some (write_event q f id arg),
          trace := w.trace ++
            ((w.notify_callbacks f).filter (fun ctx => ctx.synchronous)).map
              (fun ctx => { fn := ctx.fn, ud := ctx.ud, f := f, id := id, arg := arg }) } := by
  unfold ms_filter_notify
  rw [if_pos hcb, hq]
  simp only [invoke_callbacks_eq_filter _ _ _ _ _ hf]
  congr 3
  apply List.filter_congr
  intro ctx _
  cases ctx.synchronous <;> simp

theorem notify_with_global_queue_witness :
    ms_filter_notify
        { notify_callbacks := fun f => if f = 1 then [⟨10, 0, true⟩, ⟨11, 0, false⟩, ⟨12, 0, true⟩]
            else [],
          ms_global_event_queue := some (ms_event_queue_new 64), trace := [] } 1 0x101 [7]
      = { notify_callbacks := fun f => if f = 1
            then [⟨10, 0, true⟩, ⟨11, 0, false⟩, ⟨12, 0, true⟩] else [],
          ms_global_event_queue := some (write_event (ms_event_queue_new 64) 1 0x101 [7]),
          trace := [] ++
            (((fun f => if f = 1 then [⟨10, 0, true⟩, ⟨11, 0, false⟩, ⟨12, 0, true⟩]
              else ([] : List MSNotifyContext)) 1).filter (fun ctx => ctx.synchronous)).map
              (fun ctx => { fn := ctx.fn, ud := ctx.ud, f := 1, id := 0x101, arg := [7] }) } :=
  notify_with_global_queue _ (ms_event_queue_new 64) 1 0x101 [7] rfl (by decide) (by decide)

/-- C7. With no global queue designated (`ms_global_event_queue==NULL`), `ms_filter_notify` on
a filter `f` calls every entry of `f->notify_callbacks`, synchronous or not, once each in list
order and with the given `id` and `arg`, and writes to no queue: the global slot stays
`NULL`. -/
theorem notify_without_global_queue (w : World) (f id : Nat) (arg : List Nat)
    (hq : w.ms_global_event_queue = none) (hf : f ≠ 0) :
    ms_filter_notify w f id arg
      = { notify_callbacks := w.notify_callbacks,
          ms_global_event_queue := none,
          trace := w.trace ++
            (w.notify_callbacks f).map
              (fun ctx => { fn := ctx.fn, ud := ctx.ud, f := f, id := id, arg := arg }) } := by
  unfold ms_filter_notify
  by_cases hcb : w.notify_callbacks f ≠ []
  · rw [if_pos hcb, hq]
    simp [invoke_callbacks_eq_filter _ _ _ _ _ hf]
  · rw [if_neg hcb]
    have hnil : w.notify_callbacks f = [] := by simpa using hcb
    cases w with
    | mk cbs g tr =>
      simp only at hq hnil
      simp [hq, hnil]

theorem notify_without_global_queue_witness :
    ms_filter_notify
        { notify_callbacks := fun f => if f = 1 then [⟨10, 0, true⟩, ⟨11, 0, false⟩] else [],
          ms_global_event_queue := none, trace := [] } 1 0x101 [7]
      = { notify_callbacks := fun f => if f = 1 then [⟨10, 0, true⟩, ⟨11, 0, false⟩] else [],
          ms_global_event_queue := none,
          trace := [] ++
            ((fun f => if f = 1 then [⟨10, 0, true⟩, ⟨11, 0, false⟩]
              else ([] : List MSNotifyContext)) 1).map
              (fun ctx => { fn := ctx.fn, ud := ctx.ud, f := 1, id := 0x101, arg := [7] }) } :=
  notify_without_global_queue _ 1 0x101 [7] rfl (by decide)

/-- C8. For every queue state, `ms_event_queue_skip` gives `freeroom == size`,
`rptr == wptr == buffer` and `endptr == lim` (with `lim` at `buffer+size`), touches neither the
buffer nor `current_notifier`, and calls no callback; right after it `read_event` has the
result `FALSE` with no callback invoked and the queue untouched, so a pump delivers nothing and
leaves the queue as it is; and skipping twice is the same as skipping once. -/
theorem skip_resets_queue (reg : Nat → Option (List MSNotifyContext)) (q : MSEventQueue) :
    (ms_event_queue_skip q).freeroom = q.size
    ∧ (ms_event_queue_skip q).size = q.size
    ∧ (ms_event_queue_skip q).rptr = 0
    ∧ (ms_event_queue_skip q).wptr = 0
    ∧ (ms_event_queue_skip q).endptr = (ms_event_queue_skip q).lim
    ∧ (ms_event_queue_skip q).lim = q.size.toNat
    ∧ (ms_event_queue_skip q).buffer = q.buffer
    ∧ (ms_event_queue_skip q).current_notifier = q.current_notifier
    ∧ read_event reg (ms_event_queue_skip q)
        = some { ret := false, q := ms_event_queue_skip q, calls := [] }
    ∧ ms_event_queue_pump reg (ms_event_queue_skip q) = some (ms_event_queue_skip q, [])
    ∧ ms_event_queue_skip (ms_event_queue_skip q) = ms_event_queue_skip q := by
  have hre : read_event reg (ms_event_queue_skip q)
      = some { ret := false, q := ms_event_queue_skip q, calls := [] } :=
    read_event_false reg _ (by simp [ms_event_queue_skip])
  have hpump : ms_event_queue_pump reg (ms_event_queue_skip q)
      = some (ms_event_queue_skip q, []) := by
    unfold ms_event_queue_pump
    have h0 : ((ms_event_queue_skip q).size - (ms_event_queue_skip q).freeroom).toNat = 0 := by
      simp [ms_event_queue_skip]
    rw [h0]
    rfl
  exact ⟨rfl, rfl, rfl, rfl, rfl, rfl, rfl, rfl, hre, hpump, rfl⟩

/-- C9. The record `write_event` writes is the record `parse_event` reads.  For a filter
pointer `f` (64 bits), an event id `ev_id` (32 bits) and a payload `arg` of `ev_id & 0xff` bytes,
in a queue with `freeroom >= 16 + argsize`, `parse_event` at the offset where `write_event`
put the record returns `f`, `ev_id`, `argsize = ev_id & 0xff`, the payload offset 16 bytes
further and `evsize = 16 + argsize`, and the `argsize` bytes at that payload offset are
`arg`. -/
theorem parse_write_roundtrip (q : MSEventQueue) (f ev_id : Nat) (arg : List Nat)
    (hf : f < 2 ^ 64) (hid : ev_id < 2 ^ 32) (hlen : arg.length = ev_id &&& 0xff)
    (hbytes : ∀ b ∈ arg, b < 256)
    (hroom : ((16 + arg.length : Nat) : Int) ≤ q.freeroom) :
    parse_event (write_event q f ev_id arg).buffer (write_pos q ev_id)
      = { f := f, id := ev_id, data := write_pos q ev_id + 16, argsize := ev_id &&& 0xff,
          evsize := 16 + (ev_id &&& 0xff) }
    ∧ bytes_at (write_event q f ev_id arg).buffer
        (parse_event (write_event q f ev_id arg).buffer (write_pos q ev_id)).data
        (parse_event (write_event q f ev_id arg).buffer (write_pos q ev_id)).argsize = arg :=
  write_then_parse q f ev_id arg hf hid hlen hbytes hroom

theorem parse_write_roundtrip_witness :
    parse_event (write_event (ms_event_queue_new 64) 7 0x203 [1, 2, 3]).buffer
        (write_pos (ms_event_queue_new 64) 0x203)
      = { f := 7, id := 0x203, data := write_pos (ms_event_queue_new 64) 0x203 + 16,
          argsize := 0x203 &&& 0xff, evsize := 16 + (0x203 &&& 0xff) }
    ∧ bytes_at (write_event (ms_event_queue_new 64) 7 0x203 [1, 2, 3]).buffer
        (parse_event (write_event (ms_event_queue_new 64) 7 0x203 [1, 2, 3]).buffer
          (write_pos (ms_event_queue_new 64) 0x203)).data
        (parse_event (write_event (ms_event_queue_new 64) 7 0x203 [1, 2, 3]).buffer
          (write_pos (ms_event_queue_new 64) 0x203)).argsize = [1, 2, 3] :=
  parse_write_roundtrip (ms_event_queue_new 64) 7 0x203 [1, 2, 3] (by decide) (by decide)
    (by decide) (by decide) (by decide)

/-- C10. When `size - freeroom > 0` and the record at `rptr` has a null owner field,
`read_event` has a result whatever the registry is: it returns `TRUE`, calls no callback, moves
`rptr` forward by the record size `16 + argsize` (back to `buffer` when that reaches `endptr`),
raises `freeroom` by exactly that size and changes nothing else (`wptr`, `endptr`, `lim`,
`size`, `current_notifier` and the buffer are those of before). -/
theorem read_event_null_owner (reg : Nat → Option (List MSNotifyContext)) (q : MSEventQueue)
    (havail : 0 < q.size - q.freeroom) (hnull : (parse_event q.buffer q.rptr).f = 0) :
    read_event reg q
      = some { ret := true,
               q := { q with
                 rptr := (if q.rptr + (parse_event q.buffer q.rptr).evsize ≥ q.endptr then 0
                          else q.rptr + (parse_event q.buffer q.rptr).evsize),
                 freeroom := q.freeroom + ((parse_event q.buffer q.rptr).evsize : Int) },
               calls := [] }
    ∧ (parse_event q.buffer q.rptr).evsize = 16 + (parse_event q.buffer q.rptr).argsize := by
  constructor
  · unfold read_event
    simp only
    rw [if_pos (by omega), if_neg (by simpa using hnull)]
  · simp [parse_event, Nat.add_comm]

theorem read_event_null_owner_witness :
    0 < cleaned_queue.size - cleaned_queue.freeroom
    ∧ (parse_event cleaned_queue.buffer cleaned_queue.rptr).f = 0
    ∧ (read_event example_registry cleaned_queue).map
        (fun r => (r.ret, r.calls, r.q.rptr, r.q.freeroom, r.q.wptr, r.q.current_notifier))
      = some (true, [], 19, 64, 19, 0) :=
  ⟨by decide, by decide, by
    rw [(read_event_null_owner example_registry cleaned_queue (by decide) (by decide)).1]
    decide⟩

/-! ## Runs on the default buffer that go wrong after a wrap -/

set_option maxRecDepth 1000000

/-- C1 fails on the default 8192 byte buffer.  After `overwrite_ops` on a new queue every one of
the 32 events was accepted and the pending records never took more than 8192 bytes, yet the
62 byte record was written at offset 271 over the oldest pending record: the first
`read_event` of a pump invokes the callback for `late_event`, the event enqueued last.  The
next 13 calls decode records with a null owner in what is left of the overwritten record, and
the 15th decodes an owner that is no filter: in 14 calls the only callback is the one for
`late_event`, and the pump has no result, so it does not end with the callbacks of the pending
events in enqueue order. -/
theorem fifo_order_broken_by_wrap :
    (∀ r ∈ Run.trail example_registry (Run.start MS_EVENT_BUF_SIZE) overwrite_ops,
        r.bytes_in_use ≤ MS_EVENT_BUF_SIZE)
    ∧ (Run.exec example_registry (Run.start MS_EVENT_BUF_SIZE) overwrite_ops).accepted.length = 32
    ∧ (Run.exec example_registry (Run.start MS_EVENT_BUF_SIZE) overwrite_ops).pending
        = (List.range 30).map (fun k => big_event (k + 1)) ++ [late_event]
    ∧ (Run.exec example_registry (Run.start MS_EVENT_BUF_SIZE) overwrite_ops).q.rptr = 271
    ∧ write_pos (Run.exec example_registry (Run.start MS_EVENT_BUF_SIZE)
        (fill_ops ++ [Op.drain, Op.enqueue (big_event 30)])).q late_event.id = 271
    ∧ (Run.exec example_registry (Run.start MS_EVENT_BUF_SIZE) overwrite_ops).fault = false
    ∧ (read_event example_registry
        (Run.exec example_registry (Run.start MS_EVENT_BUF_SIZE) overwrite_ops).q).map
          ReadResult.calls
        = some [{ fn := 102, ud := 7, f := 2, id := 0x1f2e, arg := List.replicate 46 5 }]
    ∧ (pump_loop example_registry 14
        (Run.exec example_registry (Run.start MS_EVENT_BUF_SIZE) overwrite_ops).q).map Prod.snd
        = some [{ fn := 102, ud := 7, f := 2, id := 0x1f2e, arg := List.replicate 46 5 }]
    ∧ (ms_event_queue_pump example_registry
        (Run.exec example_registry (Run.start MS_EVENT_BUF_SIZE) overwrite_ops).q).isNone = true
    ∧ (ms_event_queue_pump example_registry
        (Run.exec example_registry (Run.start MS_EVENT_BUF_SIZE) overwrite_ops).q).map Prod.snd
        ≠ some (expected_calls example_registry
            (Run.exec example_registry (Run.start MS_EVENT_BUF_SIZE) overwrite_ops).pending) := by
  decide

/-- C2 fails on the default 8192 byte buffer.  In `wrap_ops` the enqueue of `big_event 30` wraps
(`wptr + 271 > lim`, so `endptr` becomes 8130 and the record goes to offset 0) while `rptr`
stays at 8130.  Both events are accepted and pending, but the pump decodes the 16 never written
bytes at offset 8130 as a record, then `big_event 30`, and stops: `no_arg_event` is not
delivered, and the queue is left with `freeroom == size` and `rptr` on the undelivered
record. -/
theorem wrap_loses_record :
    (Run.exec example_registry (Run.start MS_EVENT_BUF_SIZE) fill_and_drain_ops).q.wptr + 271
        > (Run.exec example_registry (Run.start MS_EVENT_BUF_SIZE) fill_and_drain_ops).q.lim
    ∧ (∀ r ∈ Run.trail example_registry (Run.start MS_EVENT_BUF_SIZE) wrap_ops,
        r.bytes_in_use ≤ MS_EVENT_BUF_SIZE)
    ∧ (Run.exec example_registry (Run.start MS_EVENT_BUF_SIZE) wrap_ops).accepted.length = 32
    ∧ (Run.exec example_registry (Run.start MS_EVENT_BUF_SIZE) wrap_ops).pending
        = [big_event 30, no_arg_event]
    ∧ (Run.exec example_registry (Run.start MS_EVENT_BUF_SIZE) wrap_ops).q.rptr = 8130
    ∧ (Run.exec example_registry (Run.start MS_EVENT_BUF_SIZE) wrap_ops).q.endptr = 8130
    ∧ (Run.exec example_registry (Run.start MS_EVENT_BUF_SIZE) wrap_ops).fault = false
    ∧ (ms_event_queue_pump example_registry
        (Run.exec example_registry (Run.start MS_EVENT_BUF_SIZE) wrap_ops).q).map Prod.snd
        = some [{ fn := 101, ud := 7, f := 1, id := 256 * 30 + 255,
                  arg := List.replicate 255 0 }]
    ∧ expected_calls example_registry
        (Run.exec example_registry (Run.start MS_EVENT_BUF_SIZE) wrap_ops).pending
        = [{ fn := 101, ud := 7, f := 1, id := 256 * 30 + 255, arg := List.replicate 255 0 },
           { fn := 102, ud := 7, f := 2, id := 0x300, arg := [] }]
    ∧ (ms_event_queue_pump example_registry
        (Run.exec example_registry (Run.start MS_EVENT_BUF_SIZE) wrap_ops).q).map
          (fun res => res.1.rptr) = some 271
    ∧ (ms_event_queue_pump example_registry
        (Run.exec example_registry (Run.start MS_EVENT_BUF_SIZE) wrap_ops).q).map
          (fun res => res.1.freeroom) = some 8192 := by
  decide

/-- C3 fails on the default 8192 byte buffer.  After `wrap_drain_ops` on a new queue, 31 events
were accepted and 31 calls of `read_event` returned `TRUE`, so no record is pending, but the
last `read_event` decoded the never written bytes at offset 8130 as a 16 byte record:
`freeroom` is `8192 - 271 + 16 = 7937`, not `size`. -/
theorem capacity_invariant_broken_by_wrap :
    (Run.exec example_registry (Run.start MS_EVENT_BUF_SIZE) wrap_drain_ops).accepted.length = 31
    ∧ (Run.exec example_registry (Run.start MS_EVENT_BUF_SIZE) wrap_drain_ops).drained = 31
    ∧ (Run.exec example_registry (Run.start MS_EVENT_BUF_SIZE) wrap_drain_ops).fault = false
    ∧ (Run.exec example_registry (Run.start MS_EVENT_BUF_SIZE) wrap_drain_ops).bytes_in_use = 0
    ∧ (Run.exec example_registry (Run.start MS_EVENT_BUF_SIZE) wrap_drain_ops).q.freeroom = 7937
    ∧ (Run.exec example_registry (Run.start MS_EVENT_BUF_SIZE) wrap_drain_ops).q.size = 8192
    ∧ (Run.exec example_registry (Run.start MS_EVENT_BUF_SIZE) wrap_drain_ops).q.freeroom
        + ((Run.exec example_registry (Run.start MS_EVENT_BUF_SIZE) wrap_drain_ops).bytes_in_use
            : Int)
        ≠ (Run.exec example_registry (Run.start MS_EVENT_BUF_SIZE) wrap_drain_ops).q.size := by
  decide

/-- C5 fails on the default 8192 byte buffer.  On the emptied queue of `fill_and_drain_ops`,
four events for the filters `1` and `2` in turn are all accepted; after
`ms_event_queue_clean(q, 1)` the pump invokes no callback of filter `1`, but of the two pending
events of filter `2` it delivers only `late_event`: `no_arg_event` is not delivered. -/
theorem cleanup_then_pump_loses_event :
    (Run.exec example_registry (Run.start MS_EVENT_BUF_SIZE) fill_and_drain_ops).pending = []
    ∧ (Run.exec example_registry (Run.start MS_EVENT_BUF_SIZE) interleaved_ops).pending
        = [big_event 30, late_event, big_event 31, no_arg_event]
    ∧ (Run.exec example_registry (Run.start MS_EVENT_BUF_SIZE) interleaved_ops).fault = false
    ∧ (ms_event_queue_pump example_registry
        (ms_event_queue_clean
          (Run.exec example_registry (Run.start MS_EVENT_BUF_SIZE) interleaved_ops).q 1)).map
          Prod.snd
        = some [{ fn := 102, ud := 7, f := 2, id := 0x1f2e, arg := List.replicate 46 5 }]
    ∧ expected_calls example_registry
        ((Run.exec example_registry (Run.start MS_EVENT_BUF_SIZE) interleaved_ops).pending.filter
          (fun e => e.f = 2))
        = [{ fn := 102, ud := 7, f := 2, id := 0x1f2e, arg := List.replicate 46 5 },
           { fn := 102, ud := 7, f := 2, id := 0x300, arg := [] }] := by
  decide

/-! ## The notification registry -/

theorem find_notify_context_none (fn ud : Nat) (cbs : List MSNotifyContext)
    (h : ∀ ctx ∈ cbs, ¬ (ctx.fn = fn ∧ ctx.ud = ud)) :
    find_notify_context fn ud cbs = none := by
  induction cbs with
  | nil => rfl
  | cons ctx rest ih =>
    rw [find_notify_context, if_neg (h ctx (by simp)),
      ih (fun c hc => h c (List.mem_cons_of_mem _ hc))]
    rfl

theorem find_notify_context_first (fn ud : Nat) (pre post : List MSNotifyContext)
    (x : MSNotifyContext) (hpre : ∀ ctx ∈ pre, ¬ (ctx.fn = fn ∧ ctx.ud = ud))
    (hx : x.fn = fn ∧ x.ud = ud) :
    find_notify_context fn ud (pre ++ x :: post) = some pre.length := by
  induction pre with
  | nil => simp [find_notify_context, hx]
  | cons ctx rest ih =>
    rw [List.cons_append, find_notify_context, if_neg (hpre ctx (by simp)),
      ih (fun c hc => hpre c (List.mem_cons_of_mem _ hc))]
    rfl

theorem remove_notify_callback_none (cbs : List MSNotifyContext) (fn ud : Nat)
    (h : ∀ ctx ∈ cbs, ¬ (ctx.fn = fn ∧ ctx.ud = ud)) :
    ms_filter_remove_notify_callback cbs fn ud = cbs := by
  simp only [ms_filter_remove_notify_callback, find_notify_context_none fn ud cbs h]

theorem remove_notify_callback_first (fn ud : Nat) (pre post : List MSNotifyContext)
    (x : MSNotifyContext) (hpre : ∀ ctx ∈ pre, ¬ (ctx.fn = fn ∧ ctx.ud = ud))
    (hx : x.fn = fn ∧ x.ud = ud) :
    ms_filter_remove_notify_callback (pre ++ x :: post) fn ud = pre ++ post := by
  simp only [ms_filter_remove_notify_callback, find_notify_context_first fn ud pre post x hpre hx,
    ms_list_remove_link]
  rw [List.eraseIdx_append_of_length_le (le_refl _)]
  simp

/-- C12. `ms_filter_remove_notify_callback` takes out the first entry of the list whose `fn`
and `ud` both equal the given ones and keeps every other entry in place and in order; when no
entry matches, the list is unchanged. -/
theorem remove_notify_callback_spec (cbs : List MSNotifyContext) (fn ud : Nat) :
    ((∀ ctx ∈ cbs, ¬ (ctx.fn = fn ∧ ctx.ud = ud)) →
        ms_filter_remove_notify_callback cbs fn ud = cbs)
    ∧ (∀ (pre post : List MSNotifyContext) (x : MSNotifyContext),
        cbs = pre ++ x :: post → (∀ ctx ∈ pre, ¬ (ctx.fn = fn ∧ ctx.ud = ud)) →
        x.fn = fn ∧ x.ud = ud →
        ms_filter_remove_notify_callback cbs fn ud = pre ++ post) := by
  refine ⟨remove_notify_callback_none cbs fn ud, ?_⟩
  intro pre post x hcbs hpre hx
  rw [hcbs]
  exact remove_notify_callback_first fn ud pre post x hpre hx

theorem remove_notify_callback_spec_witness :
    ms_filter_remove_notify_callback [⟨5, 6, true⟩, ⟨1, 2, true⟩, ⟨3, 4, false⟩, ⟨1, 2, false⟩] 1 2
      = [⟨5, 6, true⟩] ++ [⟨3, 4, false⟩, ⟨1, 2, false⟩]
    ∧ ms_filter_remove_notify_callback [⟨5, 6, true⟩, ⟨3, 4, false⟩] 1 2
      = [⟨5, 6, true⟩, ⟨3, 4, false⟩] :=
  ⟨(remove_notify_callback_spec [⟨5, 6, true⟩, ⟨1, 2, true⟩, ⟨3, 4, false⟩, ⟨1, 2, false⟩] 1 2).2
      [⟨5, 6, true⟩] [⟨3, 4, false⟩, ⟨1, 2, false⟩] ⟨1, 2, true⟩ rfl (by decide) (by decide),
    (remove_notify_callback_spec [⟨5, 6, true⟩, ⟨3, 4, false⟩] 1 2).1 (by decide)⟩

theorem exists_first_match (fn ud : Nat) (cbs : List MSNotifyContext)
    (h : ¬ ∀ ctx ∈ cbs, ¬ (ctx.fn = fn ∧ ctx.ud = ud)) :
    ∃ pre x post, cbs = pre ++ x :: post ∧ (x.fn = fn ∧ x.ud = ud)
      ∧ ∀ ctx ∈ pre, ¬ (ctx.fn = fn ∧ ctx.ud = ud) := by
  induction cbs with
  | nil => simp at h
  | cons c rest ih =>
    by_cases hc : c.fn = fn ∧ c.ud = ud
    · exact ⟨[], c, rest, rfl, hc, by simp⟩
    · have hrest : ¬ ∀ ctx ∈ rest, ¬ (ctx.fn = fn ∧ ctx.ud = ud) := by
        intro hall
        apply h
        intro ctx hctx
        rcases List.mem_cons.mp hctx with heq | hmem
        · rw [heq]; exact hc
        · exact hall ctx hmem
      obtain ⟨pre, x, post, hsplit, hx, hpre⟩ := ih hrest
      refine ⟨c :: pre, x, post, by rw [hsplit]; rfl, hx, ?_⟩
      intro ctx hctx
      rcases List.mem_cons.mp hctx with heq | hmem
      · rw [heq]; exact hc
      · exact hpre ctx hmem

/-- What is left when a pair is added twice and removed once: without a matching entry at the
start, the list followed by the second new entry; else the list without its first matching
entry, followed by both new entries. -/
theorem remove_after_add_twice (cbs : List MSNotifyContext) (fn ud : Nat) (s1 s2 : Bool) :
    ((∀ ctx ∈ cbs, ¬ (ctx.fn = fn ∧ ctx.ud = ud)) →
      ms_filter_remove_notify_callback
        (ms_filter_add_notify_callback (ms_filter_add_notify_callback cbs fn ud s1) fn ud s2)
        fn ud = cbs ++ [{ fn := fn, ud := ud, synchronous := s2 }])
    ∧ (∀ pre x post, cbs = pre ++ x :: post → (x.fn = fn ∧ x.ud = ud) →
      (∀ ctx ∈ pre, ¬ (ctx.fn = fn ∧ ctx.ud = ud)) →
      ms_filter_remove_notify_callback
        (ms_filter_add_notify_callback (ms_filter_add_notify_callback cbs fn ud s1) fn ud s2)
        fn ud = pre ++ (post ++ [{ fn := fn, ud := ud, synchronous := s1 },
          { fn := fn, ud := ud, synchronous := s2 }])) := by
  have hadd : ∀ (l : List MSNotifyContext) (s : Bool), ms_filter_add_notify_callback l fn ud s
      = l ++ [{ fn := fn, ud := ud, synchronous := s }] := fun _ _ => rfl
  constructor
  · intro h
    rw [hadd, hadd, List.append_assoc]
    exact remove_notify_callback_first fn ud cbs [{ fn := fn, ud := ud, synchronous := s2 }]
      { fn := fn, ud := ud, synchronous := s1 } h ⟨rfl, rfl⟩
  · intro pre x post hsplit hx hpre
    rw [hadd, hadd, hsplit]
    have hshape : pre ++ x :: post ++ [{ fn := fn, ud := ud, synchronous := s1 }]
        ++ [{ fn := fn, ud := ud, synchronous := s2 }]
        = pre ++ x :: (post ++ [{ fn := fn, ud := ud, synchronous := s1 },
            { fn := fn, ud := ud, synchronous := s2 }]) := by simp
    rw [hshape, remove_notify_callback_first fn ud pre _ x hpre hx]

/-- C13. `ms_filter_add_notify_callback` gives the list followed by the one new entry, whether
or not an entry with the same `fn` and `ud` is there already.  After the same pair is added
twice, one `ms_filter_remove_notify_callback` takes out one entry only: the list is one entry
longer than at the start and has one more entry with that pair; when the list had none, what
is left is the list followed by the second of the two.  `ms_filter_clear_notify_callback`
leaves the empty list. -/
theorem add_notify_callback_spec (cbs : List MSNotifyContext) (fn ud : Nat) (s1 s2 : Bool) :
    ms_filter_add_notify_callback cbs fn ud s1
      = cbs ++ [{ fn := fn, ud := ud, synchronous := s1 }]
    ∧ (ms_filter_remove_notify_callback
        (ms_filter_add_notify_callback (ms_filter_add_notify_callback cbs fn ud s1) fn ud s2)
        fn ud).length = cbs.length + 1
    ∧ (ms_filter_remove_notify_callback
        (ms_filter_add_notify_callback (ms_filter_add_notify_callback cbs fn ud s1) fn ud s2)
        fn ud).countP (fun ctx => decide (ctx.fn = fn ∧ ctx.ud = ud))
        = cbs.countP (fun ctx => decide (ctx.fn = fn ∧ ctx.ud = ud)) + 1
    ∧ ((∀ ctx ∈ cbs, ¬ (ctx.fn = fn ∧ ctx.ud = ud)) →
        ms_filter_remove_notify_callback
          (ms_filter_add_notify_callback (ms_filter_add_notify_callback cbs fn ud s1) fn ud s2)
          fn ud = cbs ++ [{ fn := fn, ud := ud, synchronous := s2 }])
    ∧ ms_filter_clear_notify_callback cbs = [] := by
  obtain ⟨hnone, hsome⟩ := remove_after_add_twice cbs fn ud s1 s2
  refine ⟨rfl, ?_, ?_, hnone, rfl⟩
  · by_cases h : ∀ ctx ∈ cbs, ¬ (ctx.fn = fn ∧ ctx.ud = ud)
    · rw [hnone h]
      simp
    · obtain ⟨pre, x, post, hsplit, hx, hpre⟩ := exists_first_match fn ud cbs h
      rw [hsome pre x post hsplit hx hpre, hsplit]
      simp
      omega
  · by_cases h : ∀ ctx ∈ cbs, ¬ (ctx.fn = fn ∧ ctx.ud = ud)
    · rw [hnone h]
      simp
    · obtain ⟨pre, x, post, hsplit, hx, hpre⟩ := exists_first_match fn ud cbs h
      rw [hsome pre x post hsplit hx hpre, hsplit]
      simp [List.countP_cons, hx]
      omega

theorem add_notify_callback_spec_witness :
    ms_filter_remove_notify_callback
        (ms_filter_add_notify_callback
          (ms_filter_add_notify_callback [⟨5, 6, true⟩] 1 2 true) 1 2 false) 1 2
      = [⟨5, 6, true⟩] ++ [{ fn := 1, ud := 2, synchronous := false }] :=
  (add_notify_callback_spec [⟨5, 6, true⟩] 1 2 true false).2.2.2.1 (by decide)

/-- C14. `ms_filter_notify` on a filter whose `notify_callbacks` list is empty does nothing,
with a global queue designated or not: no callback is invoked and the queue, if any, is the
same as before. -/
theorem notify_without_entries (w : World) (f id : Nat) (arg : List Nat)
    (h : w.notify_callbacks f = []) :
    ms_filter_notify w f id arg = w
    ∧ (ms_filter_notify w f id arg).trace = w.trace
    ∧ (ms_filter_notify w f id arg).ms_global_event_queue = w.ms_global_event_queue := by
  have hw : ms_filter_notify w f id arg = w := by
    unfold ms_filter_notify
    rw [if_neg (by simp [h])]
  rw [hw]
  exact ⟨rfl, rfl, rfl⟩

theorem notify_without_entries_witness :
    (ms_filter_notify
        { notify_callbacks := fun _ => [], ms_global_event_queue := some (ms_event_queue_new 64),
          trace := [] } 1 0x101 [7]).trace = [] :=
  (notify_without_entries
    { notify_callbacks := fun _ => [], ms_global_event_queue := some (ms_event_queue_new 64),
      trace := [] } 1 0x101 [7] rfl).2.1

/-! ## Where an accepted record goes, and the range of the cursors -/

theorem land_255_le (x : Nat) : x &&& 0xff ≤ 255 := by
  rw [land_255]
  omega

/-- What an accepted `write_event` does: the record goes to `write_pos`, one contiguous range
of `16 + argsize` bytes, and no byte outside of that range changes; `wptr` ends right after the
record; `endptr` becomes the old `wptr` when the record had to wrap; `freeroom` goes down by the
size of the record. -/
theorem write_event_accepted (q : MSEventQueue) (f ev_id : Nat) (arg : List Nat)
    (hacc : ((16 + (ev_id &&& 0xff) : Nat) : Int) ≤ q.freeroom) :
    (write_event q f ev_id arg).rptr = q.rptr
    ∧ (write_event q f ev_id arg).lim = q.lim
    ∧ (write_event q f ev_id arg).size = q.size
    ∧ (write_event q f ev_id arg).current_notifier = q.current_notifier
    ∧ (write_event q f ev_id arg).wptr = write_pos q ev_id + (16 + (ev_id &&& 0xff))
    ∧ (write_event q f ev_id arg).endptr
        = (if q.wptr + (16 + (ev_id &&& 0xff)) > q.lim then q.wptr else q.endptr)
    ∧ (write_event q f ev_id arg).freeroom = q.freeroom - ((16 + (ev_id &&& 0xff) : Nat) : Int)
    ∧ (∀ i, i < write_pos q ev_id ∨ write_pos q ev_id + (16 + (ev_id &&& 0xff)) ≤ i →
        (write_event q f ev_id arg).buffer i = q.buffer i) := by
  have hnd : ¬ (q.freeroom < (((ev_id &&& 0xff) + 16 : Nat) : Int)) := by
    push_cast at hacc ⊢
    omega
  unfold write_event write_pos
  simp only
  rw [if_neg hnd]
  simp only
  refine ⟨trivial, trivial, trivial, trivial, ?_, ?_, ?_, ?_⟩
  · split <;> omega
  · rw [Nat.add_comm (ev_id &&& 0xff) 16]
  · push_cast
    omega
  · intro i hi
    split
    · simp only [memcpy, store_long]
      rw [if_neg (by omega), if_neg (by omega), if_neg (by omega)]
    · simp only [store_long]
      rw [if_neg (by omega), if_neg (by omega)]

theorem write_event_dropped (q : MSEventQueue) (f ev_id : Nat) (arg : List Nat)
    (hdrop : q.freeroom < ((16 + (ev_id &&& 0xff) : Nat) : Int)) :
    write_event q f ev_id arg = q := by
  unfold write_event
  simp only
  rw [if_pos (by push_cast at hdrop ⊢; omega)]

theorem cursors_in_range_new (n : Nat) (hn : 0 < n) : cursors_in_range n (ms_event_queue_new n) :=
  ⟨rfl, rfl, le_refl n, Nat.zero_le n, hn⟩

theorem cursors_in_range_write (n : Nat) (hn : 271 ≤ n) (q : MSEventQueue) (f ev_id : Nat)
    (arg : List Nat) (h : cursors_in_range n q) :
    cursors_in_range n (write_event q f ev_id arg) := by
  obtain ⟨hlim, hsize, hend, hw, hr⟩ := h
  have h255 := land_255_le ev_id
  by_cases hacc : ((16 + (ev_id &&& 0xff) : Nat) : Int) ≤ q.freeroom
  · obtain ⟨w1, w2, w3, _, w5, w6, _, _⟩ := write_event_accepted q f ev_id arg hacc
    refine ⟨by rw [w2, hlim], by rw [w3, hsize], ?_, ?_, by rw [w1]; exact hr⟩
    · rw [w6]
      split <;> omega
    · rw [w5]
      unfold write_pos
      rw [Nat.add_comm (ev_id &&& 0xff) 16]
      split <;> omega
  · rw [write_event_dropped q f ev_id arg (by omega)]
    exact ⟨hlim, hsize, hend, hw, hr⟩

theorem cursors_in_range_read (reg : Nat → Option (List MSNotifyContext)) (n : Nat)
    (q : MSEventQueue) (h : cursors_in_range n q) :
    cursors_in_range n (QueueOp.apply reg q QueueOp.drain) := by
  obtain ⟨hlim, hsize, hend, hw, hr⟩ := h
  show cursors_in_range n (match read_event reg q with
    | none => q
    | some r => r.q)
  cases hres : read_event reg q with
  | none => exact ⟨hlim, hsize, hend, hw, hr⟩
  | some r =>
    show cursors_in_range n r.q
    by_cases hret : r.ret = true
    · obtain ⟨_, h1, h2, h3, h4, _, h6, _, _⟩ := read_event_true reg q r hres hret
      refine ⟨by rw [h2, hlim], by rw [h1, hsize], by rw [h3]; exact hend,
        by rw [h4]; exact hw, ?_⟩
      rw [h6]
      split <;> omega
    · rw [(read_event_false_result reg q r hres (by simpa using hret)).1]
      exact ⟨hlim, hsize, hend, hw, hr⟩

theorem cursors_in_range_skip (n : Nat) (hn : 0 < n) (q : MSEventQueue)
    (h : cursors_in_range n q) : cursors_in_range n (ms_event_queue_skip q) := by
  obtain ⟨_, hsize, _, _, _⟩ := h
  have ht : q.size.toNat = n := by rw [hsize]; simp
  exact ⟨ht, hsize, by show q.size.toNat ≤ n; omega, Nat.zero_le n, hn⟩

theorem cursors_in_range_clean (n : Nat) (q : MSEventQueue) (destroyed : Nat)
    (h : cursors_in_range n q) : cursors_in_range n (ms_event_queue_clean q destroyed) :=
  h

/-- On a buffer of at least 271 bytes (the largest record), whatever calls are made on a new
queue, `lim` and `size` stay the size of the buffer, `endptr` and `wptr` stay at most `lim`
and `rptr` stays below `lim`. -/
theorem cursors_in_range_run (reg : Nat → Option (List MSNotifyContext)) (n : Nat) (hn : 271 ≤ n)
    (ops : List QueueOp) :
    ∀ q, cursors_in_range n q → cursors_in_range n (run_ops reg q ops) := by
  induction ops with
  | nil => intro q h; exact h
  | cons op ops ih =>
    intro q h
    show cursors_in_range n (run_ops reg (QueueOp.apply reg q op) ops)
    apply ih
    cases op with
    | enqueue f ev_id arg => exact cursors_in_range_write n hn q f ev_id arg h
    | drain => exact cursors_in_range_read reg n q h
    | skip => exact cursors_in_range_skip n (by omega) q h
    | clean destroyed => exact cursors_in_range_clean n q destroyed h

/-- C15 as stated fails.  Thirty-two accepted records of 256 bytes on a new queue of the
default 8192 bytes end exactly at `lim`: `wptr` is 8192, the capacity, and not below it. -/
theorem write_cursor_reaches_lim :
    (run_ops example_registry (ms_event_queue_new MS_EVENT_BUF_SIZE) exact_fill_ops).wptr = 8192
    ∧ (run_ops example_registry (ms_event_queue_new MS_EVENT_BUF_SIZE) exact_fill_ops).lim = 8192
    ∧ (run_ops example_registry (ms_event_queue_new MS_EVENT_BUF_SIZE) exact_fill_ops).freeroom
        = 0
    ∧ ¬ ((run_ops example_registry (ms_event_queue_new MS_EVENT_BUF_SIZE) exact_fill_ops).wptr
          < MS_EVENT_BUF_SIZE
        ∧ (run_ops example_registry (ms_event_queue_new MS_EVENT_BUF_SIZE) exact_fill_ops).rptr
          < MS_EVENT_BUF_SIZE) := by
  decide

/-- C15, amended.  In every state of a queue of the default 8192 bytes that calls of
`write_event`, `read_event`, `ms_event_queue_skip` and `ms_event_queue_clean` reach from a new
queue, `wptr` lies in `[buffer, lim]` and `rptr` lies in `[buffer, lim)`, with `lim` at
`buffer + 8192` (and `endptr` at most `lim`). -/
theorem cursors_stay_in_range (reg : Nat → Option (List MSNotifyContext)) (ops : List QueueOp) :
    (run_ops reg (ms_event_queue_new MS_EVENT_BUF_SIZE) ops).wptr
        ≤ (run_ops reg (ms_event_queue_new MS_EVENT_BUF_SIZE) ops).lim
    ∧ (run_ops reg (ms_event_queue_new MS_EVENT_BUF_SIZE) ops).rptr
        < (run_ops reg (ms_event_queue_new MS_EVENT_BUF_SIZE) ops).lim
    ∧ (run_ops reg (ms_event_queue_new MS_EVENT_BUF_SIZE) ops).endptr
        ≤ (run_ops reg (ms_event_queue_new MS_EVENT_BUF_SIZE) ops).lim
    ∧ (run_ops reg (ms_event_queue_new MS_EVENT_BUF_SIZE) ops).lim = MS_EVENT_BUF_SIZE := by
  obtain ⟨hlim, _, hend, hw, hr⟩ := cursors_in_range_run reg MS_EVENT_BUF_SIZE (by decide) ops
    (ms_event_queue_new MS_EVENT_BUF_SIZE) (cursors_in_range_new _ (by decide))
  rw [hlim]
  exact ⟨hw, hr, hend, rfl⟩

/-- C16. In every state `q` of a queue of the default 8192 bytes reached from a new queue, an
accepted `write_event` puts its record of `16 + (ev_id & 0xff)` bytes into the one range
`[p, p + size)` with `p + size <= lim` and changes no byte outside of it; `wptr` ends at
`p + size`.  When `wptr + size` exceeds `lim`, `p` is the start of the buffer and `endptr`
becomes the `wptr` of before; else `p` is `wptr` and `endptr` stays. -/
theorem records_never_split (reg : Nat → Option (List MSNotifyContext)) (ops : List QueueOp)
    (q : MSEventQueue) (f ev_id : Nat) (arg : List Nat)
    (hq : q = run_ops reg (ms_event_queue_new MS_EVENT_BUF_SIZE) ops)
    (hacc : ((16 + (ev_id &&& 0xff) : Nat) : Int) ≤ q.freeroom) :
    write_pos q ev_id + (16 + (ev_id &&& 0xff)) ≤ q.lim
    ∧ (∀ i, i < write_pos q ev_id ∨ write_pos q ev_id + (16 + (ev_id &&& 0xff)) ≤ i →
        (write_event q f ev_id arg).buffer i = q.buffer i)
    ∧ (write_event q f ev_id arg).wptr = write_pos q ev_id + (16 + (ev_id &&& 0xff))
    ∧ (write_event q f ev_id arg).lim = q.lim
    ∧ (q.wptr + (16 + (ev_id &&& 0xff)) > q.lim →
        write_pos q ev_id = 0 ∧ (write_event q f ev_id arg).endptr = q.wptr)
    ∧ (q.wptr + (16 + (ev_id &&& 0xff)) ≤ q.lim →
        write_pos q ev_id = q.wptr ∧ (write_event q f ev_id arg).endptr = q.endptr) := by
  obtain ⟨hlim, _, _, _, _⟩ := cursors_in_range_run reg MS_EVENT_BUF_SIZE (by decide) ops
    (ms_event_queue_new MS_EVENT_BUF_SIZE) (cursors_in_range_new _ (by decide))
  rw [← hq] at hlim
  have h255 := land_255_le ev_id
  have hbuf : MS_EVENT_BUF_SIZE = 8192 := rfl
  obtain ⟨_, w2, _, _, w5, w6, _, w8⟩ := write_event_accepted q f ev_id arg hacc
  have hpos : write_pos q ev_id = (if q.wptr + (16 + (ev_id &&& 0xff)) > q.lim then 0
      else q.wptr) := by
    unfold write_pos
    rw [Nat.add_comm (ev_id &&& 0xff) 16]
  refine ⟨?_, w8, w5, w2, ?_, ?_⟩
  · rw [hpos]
    split <;> omega
  · intro hwrap
    rw [hpos, w6, if_pos hwrap, if_pos hwrap]
    exact ⟨rfl, rfl⟩
  · intro hfit
    rw [hpos, w6, if_neg (by omega), if_neg (by omega)]
    exact ⟨rfl, rfl⟩

theorem records_never_split_witness :
    ((16 + (0x300 &&& 0xff) : Nat) : Int)
        ≤ (run_ops example_registry (ms_event_queue_new MS_EVENT_BUF_SIZE)
            (exact_fill_ops ++ [QueueOp.drain])).freeroom
    ∧ (run_ops example_registry (ms_event_queue_new MS_EVENT_BUF_SIZE)
        (exact_fill_ops ++ [QueueOp.drain])).wptr = 8192
    ∧ write_pos (run_ops example_registry (ms_event_queue_new MS_EVENT_BUF_SIZE)
        (exact_fill_ops ++ [QueueOp.drain])) 0x300 = 0
    ∧ (write_event (run_ops example_registry (ms_event_queue_new MS_EVENT_BUF_SIZE)
        (exact_fill_ops ++ [QueueOp.drain])) 2 0x300 []).endptr = 8192
    ∧ write_pos (run_ops example_registry (ms_event_queue_new MS_EVENT_BUF_SIZE)
        (exact_fill_ops ++ [QueueOp.drain])) 0x300 + (16 + (0x300 &&& 0xff))
      ≤ (run_ops example_registry (ms_event_queue_new MS_EVENT_BUF_SIZE)
        (exact_fill_ops ++ [QueueOp.drain])).lim :=
  ⟨by decide, by decide, by decide, by decide,
    (records_never_split example_registry (exact_fill_ops ++ [QueueOp.drain])
      (run_ops example_registry (ms_event_queue_new MS_EVENT_BUF_SIZE)
        (exact_fill_ops ++ [QueueOp.drain])) 2 0x300 [] rfl (by decide)).1⟩

/-! ## The loops end -/

theorem loop_bound_zero (size freeroom : Int) (h : size - freeroom ≤ 0) :
    loop_bound size freeroom = 0 := by
  unfold loop_bound
  omega

theorem loop_bound_step (size freeroom : Int) (k : Nat) (h : 0 < size - freeroom) :
    loop_bound size (freeroom + ((k + 16 : Nat) : Int)) + 1 ≤ loop_bound size freeroom := by
  unfold loop_bound
  push_cast
  omega

theorem read_event_bound (reg : Nat → Option (List MSNotifyContext)) (q : MSEventQueue)
    (r : ReadResult) (h : read_event reg q = some r) (hret : r.ret = true) :
    loop_bound r.q.size r.q.freeroom + 1 ≤ loop_bound q.size q.freeroom := by
  obtain ⟨ha, h1, _, _, _, _, _, h7, _⟩ := read_event_true reg q r h hret
  rw [h1, h7]
  exact loop_bound_step q.size q.freeroom (parse_event q.buffer q.rptr).argsize ha

theorem pump_count_le (reg : Nat → Option (List MSNotifyContext)) (fuel : Nat) :
    ∀ q : MSEventQueue, pump_count reg fuel q ≤ loop_bound q.size q.freeroom := by
  induction fuel with
  | zero => intro q; simp [pump_count]
  | succ k ih =>
    intro q
    simp only [pump_count]
    cases hres : read_event reg q with
    | none => simp
    | some r =>
      simp only
      by_cases hret : r.ret = true
      · rw [if_pos hret]
        have h1 := ih r.q
        have h2 := read_event_bound reg q r hres hret
        omega
      · rw [if_neg hret]
        omega

/-- Past `loop_bound` iterations the loop of the pump does nothing more: every larger fuel
gives what `loop_bound` gives, a result or none. -/
theorem pump_loop_stable (reg : Nat → Option (List MSNotifyContext)) (k : Nat) :
    ∀ (fuel : Nat) (q : MSEventQueue), loop_bound q.size q.freeroom ≤ k → k ≤ fuel →
      pump_loop reg fuel q = pump_loop reg k q := by
  induction k with
  | zero =>
    intro fuel q hb _
    have hfalse : read_event reg q = some { ret := false, q := q, calls := [] } := by
      apply read_event_false
      unfold loop_bound at hb
      omega
    cases fuel with
    | zero => rfl
    | succ m =>
      simp only [pump_loop, hfalse]
      rfl
  | succ k ih =>
    intro fuel q hb hk
    cases fuel with
    | zero => omega
    | succ m =>
      simp only [pump_loop]
      cases hres : read_event reg q with
      | none => rfl
      | some r =>
        simp only
        by_cases hret : r.ret = true
        · have h2 := read_event_bound reg q r hres hret
          rw [if_pos hret, if_pos hret, ih m r.q (by omega) (by omega)]
        · rw [if_neg hret, if_neg hret]

/-- When the owner decoded at `rptr` is null or a filter, `read_event` has a result. -/
theorem read_event_result (reg : Nat → Option (List MSNotifyContext)) (q : MSEventQueue)
    (hown : 0 < q.size - q.freeroom →
      (parse_event q.buffer q.rptr).f = 0
        ∨ (reg (parse_event q.buffer q.rptr).f).isSome = true) :
    ∃ r, read_event reg q = some r := by
  unfold read_event
  simp only
  by_cases ha : q.size - q.freeroom > 0
  · rw [if_pos ha]
    by_cases hf : (parse_event q.buffer q.rptr).f = 0
    · rw [if_neg (by simpa using hf)]
      exact ⟨_, rfl⟩
    · rw [if_pos hf]
      rcases hown ha with h0 | hsome
      · exact absurd h0 hf
      · cases hreg : reg (parse_event q.buffer q.rptr).f with
        | none => rw [hreg] at hsome; cases hsome
        | some cbs => exact ⟨_, rfl⟩
  · rw [if_neg ha]
    exact ⟨_, rfl⟩

/-- When every owner on the way of the reader is null or a filter, the loop of the pump has a
result. -/
theorem pump_loop_result (reg : Nat → Option (List MSNotifyContext)) (fuel : Nat) :
    ∀ q : MSEventQueue,
      (∀ f ∈ scan_owners q.size q.endptr fuel q.freeroom q.rptr q.buffer,
        f = 0 ∨ (reg f).isSome = true) →
      ∃ res, pump_loop reg fuel q = some res := by
  induction fuel with
  | zero => intro q _; exact ⟨(q, []), rfl⟩
  | succ k ih =>
    intro q hown
    have hhead : 0 < q.size - q.freeroom →
        (parse_event q.buffer q.rptr).f = 0
          ∨ (reg (parse_event q.buffer q.rptr).f).isSome = true := by
      intro ha
      apply hown
      simp only [scan_owners]
      rw [if_pos (by omega)]
      exact List.mem_cons_self _ _
    obtain ⟨r, hres⟩ := read_event_result reg q hhead
    simp only [pump_loop, hres]
    by_cases hret : r.ret = true
    · rw [if_pos hret]
      obtain ⟨ha, h1, _, h3, _, h5, h6, h7, _⟩ := read_event_true reg q r hres hret
      obtain ⟨rest, hrest⟩ := ih r.q (by
        intro f hf
        apply hown
        simp only [scan_owners]
        rw [if_pos (by omega)]
        apply List.mem_cons_of_mem
        rw [h1, h3, h5, h6, h7] at hf
        exact hf)
      rw [hrest]
      exact ⟨_, rfl⟩
    · rw [if_neg hret]
      exact ⟨_, rfl⟩

theorem clean_count_le (size : Int) (endptr destroyed : Nat) (fuel : Nat) :
    ∀ (freeroom : Int) (rptr : Nat) (buf : Nat → Nat),
      clean_count size endptr destroyed fuel freeroom rptr buf ≤ loop_bound size freeroom := by
  induction fuel with
  | zero => intro _ _ _; simp [clean_count]
  | succ k ih =>
    intro freeroom rptr buf
    simp only [clean_count]
    split
    · rename_i h
      have h1 := ih (freeroom + (((parse_event buf rptr).evsize : Nat) : Int))
        (if rptr + (parse_event buf rptr).evsize ≥ endptr then 0
          else rptr + (parse_event buf rptr).evsize)
        (if (parse_event buf rptr).f = destroyed then store_long buf rptr 0 else buf)
      have h2 : loop_bound size (freeroom + (((parse_event buf rptr).evsize : Nat) : Int)) + 1
          ≤ loop_bound size freeroom :=
        loop_bound_step size freeroom (parse_event buf rptr).argsize (by omega)
      omega
    · omega

theorem clean_loop_stable (size : Int) (endptr destroyed : Nat) (k : Nat) :
    ∀ (fuel : Nat) (freeroom : Int) (rptr : Nat) (buf : Nat → Nat),
      loop_bound size freeroom ≤ k → k ≤ fuel →
      clean_loop size endptr destroyed fuel freeroom rptr buf
        = clean_loop size endptr destroyed k freeroom rptr buf := by
  induction k with
  | zero =>
    intro fuel freeroom rptr buf hb _
    have hstop : ¬ (size > freeroom) := by
      unfold loop_bound at hb
      omega
    cases fuel with
    | zero => rfl
    | succ m => simp only [clean_loop, if_neg hstop]
  | succ k ih =>
    intro fuel freeroom rptr buf hb hk
    cases fuel with
    | zero => omega
    | succ m =>
      simp only [clean_loop]
      by_cases h : size > freeroom
      · have h2 : loop_bound size (freeroom + (((parse_event buf rptr).evsize : Nat) : Int)) + 1
            ≤ loop_bound size freeroom :=
          loop_bound_step size freeroom (parse_event buf rptr).argsize (by omega)
        rw [if_pos h, if_pos h]
        apply ih
        · omega
        · omega
      · rw [if_neg h, if_neg h]

theorem loop_bound_le_fuel (size freeroom : Int) :
    loop_bound size freeroom ≤ (size - freeroom).toNat := by
  unfold loop_bound
  omega

/-- C17 as stated fails: not from every queue state does the pump end in a state where
`read_event` returns `FALSE`.  In the queue `overwrite_ops` leaves on the default 8192 byte
buffer (no call before had a fault), the first 14 calls of `read_event` in the pump return
`TRUE` and bring `rptr` to offset 541; the owner field decoded there is 256, which is not null
and no filter, so the 15th call has no result and neither has the pump. -/
theorem pump_meets_owner_that_is_no_filter :
    (Run.exec example_registry (Run.start MS_EVENT_BUF_SIZE) overwrite_ops).fault = false
    ∧ pump_count example_registry 14
        (Run.exec example_registry (Run.start MS_EVENT_BUF_SIZE) overwrite_ops).q = 14
    ∧ (pump_loop example_registry 14
        (Run.exec example_registry (Run.start MS_EVENT_BUF_SIZE) overwrite_ops).q).map
          (fun res => res.1.rptr) = some 541
    ∧ (parse_event
        (Run.exec example_registry (Run.start MS_EVENT_BUF_SIZE) overwrite_ops).q.buffer 541).f
        = 256
    ∧ example_registry 256 = none
    ∧ (pump_loop example_registry 15
        (Run.exec example_registry (Run.start MS_EVENT_BUF_SIZE) overwrite_ops).q).isNone = true
    ∧ (ms_event_queue_pump example_registry
        (Run.exec example_registry (Run.start MS_EVENT_BUF_SIZE) overwrite_ops).q).isNone = true
    ∧ ¬ ∃ res, ms_event_queue_pump example_registry
          (Run.exec example_registry (Run.start MS_EVENT_BUF_SIZE) overwrite_ops).q = some res
        ∧ read_event example_registry res.1 = some { ret := false, q := res.1, calls := [] } := by
  have hnone : (ms_event_queue_pump example_registry
      (Run.exec example_registry (Run.start MS_EVENT_BUF_SIZE) overwrite_ops).q).isNone
      = true := by decide
  refine ⟨by decide, by decide, by decide, by decide, by decide, by decide, hnone, ?_⟩
  rintro ⟨res, hres, _⟩
  rw [hres] at hnone
  cases hnone

/-- C17, amended.  From every queue state in which every owner on the way of the reader is null
or a filter, the loop of `ms_event_queue_pump` has a result and is over after at most
`ceil((size - freeroom) / 16)` calls of `read_event` that return `TRUE`: more iterations
change nothing, each such call raises `freeroom` by at least 16, and in the state the pump
ends in `read_event` returns `FALSE`.  From every queue state, the scan loop of
`ms_event_queue_clean` is over after at most as many iterations. -/
theorem pump_and_clean_terminate (reg : Nat → Option (List MSNotifyContext)) (q : MSEventQueue)
    (destroyed fuel : Nat) (hfuel : loop_bound q.size q.freeroom ≤ fuel)
    (howners : ∀ f ∈ scan_owners q.size q.endptr (loop_bound q.size q.freeroom) q.freeroom
        q.rptr q.buffer, f = 0 ∨ (reg f).isSome = true) :
    (∃ res, pump_loop reg (loop_bound q.size q.freeroom) q = some res
      ∧ pump_loop reg fuel q = some res
      ∧ ms_event_queue_pump reg q = some res
      ∧ read_event reg res.1 = some { ret := false, q := res.1, calls := [] })
    ∧ pump_count reg fuel q ≤ loop_bound q.size q.freeroom
    ∧ (∀ (q' : MSEventQueue) (r : ReadResult), read_event reg q' = some r → r.ret = true →
        q'.freeroom + 16 ≤ r.q.freeroom)
    ∧ clean_loop q.size q.endptr destroyed fuel q.freeroom q.rptr q.buffer
        = clean_loop q.size q.endptr destroyed (loop_bound q.size q.freeroom) q.freeroom q.rptr
            q.buffer
    ∧ (ms_event_queue_clean q destroyed).buffer
        = clean_loop q.size q.endptr destroyed (loop_bound q.size q.freeroom) q.freeroom q.rptr
            q.buffer
    ∧ clean_count q.size q.endptr destroyed fuel q.freeroom q.rptr q.buffer
        ≤ loop_bound q.size q.freeroom := by
  obtain ⟨res, hres⟩ := pump_loop_result reg (loop_bound q.size q.freeroom) q howners
  have hfuel' : pump_loop reg fuel q = some res := by
    rw [pump_loop_stable reg _ fuel q (le_refl _) hfuel]
    exact hres
  have hpump : ms_event_queue_pump reg q = some res := by
    unfold ms_event_queue_pump
    rw [pump_loop_stable reg _ _ q (le_refl _) (loop_bound_le_fuel _ _)]
    exact hres
  exact ⟨⟨res, hres, hfuel', hpump, pump_drained reg q res hpump⟩,
    pump_count_le reg fuel q,
    fun q' r h hret => (read_event_freeroom reg q' r h hret).2,
    clean_loop_stable _ _ _ _ fuel _ _ _ (le_refl _) hfuel,
    clean_loop_stable _ _ _ _ _ _ _ _ (le_refl _) (loop_bound_le_fuel _ _),
    clean_count_le _ _ _ fuel _ _ _⟩

theorem pump_and_clean_terminate_witness :
    loop_bound cleaned_queue.size cleaned_queue.freeroom = 2
    ∧ scan_owners cleaned_queue.size cleaned_queue.endptr
        (loop_bound cleaned_queue.size cleaned_queue.freeroom) cleaned_queue.freeroom
        cleaned_queue.rptr cleaned_queue.buffer = [0]
    ∧ pump_count example_registry 100 cleaned_queue = 1
    ∧ ∃ res, pump_loop example_registry (loop_bound cleaned_queue.size cleaned_queue.freeroom)
          cleaned_queue = some res
        ∧ pump_loop example_registry 100 cleaned_queue = some res
        ∧ ms_event_queue_pump example_registry cleaned_queue = some res
        ∧ read_event example_registry res.1 = some { ret := false, q := res.1, calls := [] } :=
  ⟨by decide, by decide, by decide,
    (pump_and_clean_terminate example_registry cleaned_queue 7 100 (by decide) (by decide)).1⟩

/-! ## What cleanup leaves alone -/

/-- From every queue state, `ms_event_queue_clean` leaves the cursors, `endptr`, `lim`,
`freeroom` and `size` as they are, and clears `current_notifier` exactly when it is the
destroyed filter. -/
theorem clean_frame (q : MSEventQueue) (destroyed : Nat) :
    (ms_event_queue_clean q destroyed).rptr = q.rptr
    ∧ (ms_event_queue_clean q destroyed).wptr = q.wptr
    ∧ (ms_event_queue_clean q destroyed).endptr = q.endptr
    ∧ (ms_event_queue_clean q destroyed).lim = q.lim
    ∧ (ms_event_queue_clean q destroyed).freeroom = q.freeroom
    ∧ (ms_event_queue_clean q destroyed).size = q.size
    ∧ (ms_event_queue_clean q destroyed).current_notifier
        = (if q.current_notifier = destroyed then 0 else q.current_notifier) :=
  ⟨rfl, rfl, rfl, rfl, rfl, rfl, rfl⟩

/-- On a queue that has not wrapped, cleanup changes nothing but owner fields.  On a new queue
of `n` bytes, after operations whose enqueued events are well-formed and together take at most
`n` bytes, the records of the pending events lie one after the other from the offset the drained
records end at, and after `ms_event_queue_clean(q, destroyed)` the same offsets hold the same
records (event id, payload and size), with a null owner where the owner was `destroyed` and the
owner of before elsewhere.  The owners of the enqueued events are null or filters, so that no
drain of the run meets an owner it cannot dereference. -/
theorem wrap_free_clean_records (reg : Nat → Option (List MSNotifyContext)) (n : Nat) (ops : List Op)
    (destroyed : Nat) (hvalid : ∀ e, Op.enqueue e ∈ ops → e.valid)
    (howned : ∀ e, Op.enqueue e ∈ ops → e.owned reg)
    (hfit : total_size (enqueued ops) ≤ n) :
    records_at (Run.exec reg (Run.start n) ops).q.buffer
        (total_size ((Run.exec reg (Run.start n) ops).accepted.take
          (Run.exec reg (Run.start n) ops).drained))
        (Run.exec reg (Run.start n) ops).pending
    ∧ records_at (ms_event_queue_clean (Run.exec reg (Run.start n) ops).q destroyed).buffer
        (total_size ((Run.exec reg (Run.start n) ops).accepted.take
          (Run.exec reg (Run.start n) ops).drained))
        ((Run.exec reg (Run.start n) ops).pending.map (Event.neutralize destroyed)) := by
  obtain ⟨hinv, _⟩ := wrap_free_exec reg n ops (Run.start n) (wrap_free_start reg n) hvalid
    howned (by simpa [Run.start, total_size] using hfit)
  obtain ⟨done, pend, hacc', hdr, hsize, hlim, hend, htot, hw, hfree, hrec, hr, hcalls, _,
    _⟩ := hinv
  have hpend : (Run.exec reg (Run.start n) ops).pending = pend := by
    simp only [Run.pending]
    rw [hacc', hdr, List.drop_left]
  have htake : (Run.exec reg (Run.start n) ops).accepted.take
      (Run.exec reg (Run.start n) ops).drained = done := by
    rw [hacc', hdr, List.take_left]
  rw [hpend, htake]
  refine ⟨hrec, ?_⟩
  rcases hr with hr | ⟨hnil, _⟩
  · have hlen := length_le_total_size pend
    obtain ⟨c1, _, _⟩ := clean_loop_records (Run.exec reg (Run.start n) ops).q.size
      (Run.exec reg (Run.start n) ops).q.endptr destroyed pend
      ((Run.exec reg (Run.start n) ops).q.size
        - (Run.exec reg (Run.start n) ops).q.freeroom).toNat
      (Run.exec reg (Run.start n) ops).q.freeroom (Run.exec reg (Run.start n) ops).q.rptr
      (Run.exec reg (Run.start n) ops).q.buffer
      (by rw [hfree, hsize]; omega) (by rw [hfree, hsize])
      (Or.inr ⟨by rw [hr]; exact hrec, by
        rw [hr, hend]
        rw [hacc', total_size_append] at htot
        exact htot⟩)
    rw [← hr]
    exact c1
  · rw [hnil]
    trivial

/-! ## More runs on the default buffer that go wrong after a wrap -/

/-- C11 fails on the default 8192 byte buffer.  After `wrap_ops` the records of the two pending
events `big_event 30` (filter `1`) and `no_arg_event` (filter `2`) lie at the offsets 0 and
271.  The scan of `ms_event_queue_clean(q, 2)` starts at `rptr = 8130`, takes the 16 never
written bytes there for a record and is over before it reaches offset 271: the owner field of
the pending record of filter `2` is still `2`, not null.  After a pump and one more event, the
next pump invokes the callback of filter `2` with that record. -/
theorem cleanup_misses_pending_record :
    (Run.exec example_registry (Run.start MS_EVENT_BUF_SIZE) wrap_ops).fault = false
    ∧ (Run.exec example_registry (Run.start MS_EVENT_BUF_SIZE) wrap_ops).pending
        = [big_event 30, no_arg_event]
    ∧ (accepted_offsets example_registry (Run.start MS_EVENT_BUF_SIZE) wrap_ops).drop 30
        = [0, 271]
    ∧ (Run.exec example_registry (Run.start MS_EVENT_BUF_SIZE) wrap_ops).q.rptr = 8130
    ∧ parse_event (Run.exec example_registry (Run.start MS_EVENT_BUF_SIZE) wrap_ops).q.buffer 271
        = { f := 2, id := 0x300, data := 287, argsize := 0, evsize := 16 }
    ∧ parse_event (ms_event_queue_clean
          (Run.exec example_registry (Run.start MS_EVENT_BUF_SIZE) wrap_ops).q 2).buffer 271
        = { f := 2, id := 0x300, data := 287, argsize := 0, evsize := 16 }
    ∧ ((ms_event_queue_pump example_registry
          (ms_event_queue_clean
            (Run.exec example_registry (Run.start MS_EVENT_BUF_SIZE) wrap_ops).q 2)).bind
        (fun res => ms_event_queue_pump example_registry
          (write_event res.1 1 (256 * 31 + 255) (List.replicate 255 0)))).map Prod.snd
        = some [{ fn := 102, ud := 7, f := 2, id := 0x300, arg := [] },
           { fn := 101, ud := 7, f := 1, id := 256 * 31 + 255,
             arg := List.replicate 255 0 }] := by
  decide

/-- C18 fails on the default 8192 byte buffer.  In the state reached by `fill_ops`, one drain
and the enqueue of `big_event 30`, the records of the thirty pending events lie at the offsets
271, 542, ..., 7859 and 0, and `freeroom` is 62.  `write_event` accepts the 62 byte record of
`late_event` and writes it to `[271, 333)`, inside the range `[271, 542)` of the oldest pending
record: the header there was that of `big_event 1` and is now that of `late_event`. -/
theorem accepted_enqueue_overwrites_pending :
    (Run.exec example_registry (Run.start MS_EVENT_BUF_SIZE)
        (fill_ops ++ [Op.drain, Op.enqueue (big_event 30)])).fault = false
    ∧ (Run.exec example_registry (Run.start MS_EVENT_BUF_SIZE)
        (fill_ops ++ [Op.drain, Op.enqueue (big_event 30)])).pending
      = (List.range 30).map (fun k => big_event (k + 1))
    ∧ ((record_ranges
          (Run.exec example_registry (Run.start MS_EVENT_BUF_SIZE)
            (fill_ops ++ [Op.drain, Op.enqueue (big_event 30)])).accepted
          (accepted_offsets example_registry (Run.start MS_EVENT_BUF_SIZE)
            (fill_ops ++ [Op.drain, Op.enqueue (big_event 30)]))).drop
        (Run.exec example_registry (Run.start MS_EVENT_BUF_SIZE)
          (fill_ops ++ [Op.drain, Op.enqueue (big_event 30)])).drained).head?
      = some (271, 542)
    ∧ ((late_event.record_size : Nat) : Int)
        ≤ (Run.exec example_registry (Run.start MS_EVENT_BUF_SIZE)
            (fill_ops ++ [Op.drain, Op.enqueue (big_event 30)])).q.freeroom
    ∧ write_pos (Run.exec example_registry (Run.start MS_EVENT_BUF_SIZE)
        (fill_ops ++ [Op.drain, Op.enqueue (big_event 30)])).q late_event.id = 271
    ∧ late_event.record_size = 62
    ∧ (∃ rg ∈ (record_ranges
          (Run.exec example_registry (Run.start MS_EVENT_BUF_SIZE)
            (fill_ops ++ [Op.drain, Op.enqueue (big_event 30)])).accepted
          (accepted_offsets example_registry (Run.start MS_EVENT_BUF_SIZE)
            (fill_ops ++ [Op.drain, Op.enqueue (big_event 30)]))).drop
        (Run.exec example_registry (Run.start MS_EVENT_BUF_SIZE)
          (fill_ops ++ [Op.drain, Op.enqueue (big_event 30)])).drained,
        rg.1 < write_pos (Run.exec example_registry (Run.start MS_EVENT_BUF_SIZE)
            (fill_ops ++ [Op.drain, Op.enqueue (big_event 30)])).q late_event.id
            + late_event.record_size
        ∧ write_pos (Run.exec example_registry (Run.start MS_EVENT_BUF_SIZE)
            (fill_ops ++ [Op.drain, Op.enqueue (big_event 30)])).q late_event.id < rg.2)
    ∧ parse_event (Run.exec example_registry (Run.start MS_EVENT_BUF_SIZE)
        (fill_ops ++ [Op.drain, Op.enqueue (big_event 30)])).q.buffer 271
      = { f := 1, id := 256 * 1 + 255, data := 287, argsize := 255, evsize := 271 }
    ∧ parse_event (write_event (Run.exec example_registry (Run.start MS_EVENT_BUF_SIZE)
        (fill_ops ++ [Op.drain, Op.enqueue (big_event 30)])).q
          late_event.f late_event.id late_event.arg).buffer 271
      = { f := 2, id := 0x1f2e, data := 287, argsize := 46, evsize := 62 } := by
  decide

/-- C19 fails on the default 8192 byte buffer.  After `short_tail_ops` one record is pending
(`size - freeroom` is 16) and it lies at offset 0, but `rptr` is still 8178, 14 bytes before
`lim`: the record `read_event` and the scan of `ms_event_queue_clean` decode at `rptr` ends at
`8178 + 16 = 8194`, past `lim = 8192`, so the read of the header goes 2 bytes past the
buffer. -/
theorem read_cursor_decodes_past_lim :
    (Run.exec example_registry (Run.start MS_EVENT_BUF_SIZE) short_tail_ops).fault = false
    ∧ (Run.exec example_registry (Run.start MS_EVENT_BUF_SIZE) short_tail_ops).pending
        = [no_arg_event]
    ∧ (Run.exec example_registry (Run.start MS_EVENT_BUF_SIZE) short_tail_ops).bytes_in_use = 16
    ∧ (Run.exec example_registry (Run.start MS_EVENT_BUF_SIZE) short_tail_ops).q.size
        - (Run.exec example_registry (Run.start MS_EVENT_BUF_SIZE) short_tail_ops).q.freeroom = 16
    ∧ (accepted_offsets example_registry (Run.start MS_EVENT_BUF_SIZE) short_tail_ops).drop 33
        = [0]
    ∧ (Run.exec example_registry (Run.start MS_EVENT_BUF_SIZE) short_tail_ops).q.rptr = 8178
    ∧ (Run.exec example_registry (Run.start MS_EVENT_BUF_SIZE) short_tail_ops).q.lim = 8192
    ∧ (parse_event (Run.exec example_registry (Run.start MS_EVENT_BUF_SIZE) short_tail_ops).q.buffer
        (Run.exec example_registry (Run.start MS_EVENT_BUF_SIZE) short_tail_ops).q.rptr).argsize
        = 0
    ∧ ¬ ((Run.exec example_registry (Run.start MS_EVENT_BUF_SIZE) short_tail_ops).q.rptr + 16
          + (parse_event
              (Run.exec example_registry (Run.start MS_EVENT_BUF_SIZE) short_tail_ops).q.buffer
              (Run.exec example_registry (Run.start MS_EVENT_BUF_SIZE) short_tail_ops).q.rptr).argsize
        ≤ (Run.exec example_registry (Run.start MS_EVENT_BUF_SIZE) short_tail_ops).q.lim) := by
  decide

end EventQueue
